import Mathlib

/-!
Shallow embedding of the go-gamelaunch-client repository, covering the
terminal emulator (`pkg/tui/emulator.go`), the web state synchronizer
(`pkg/webui`), and the reconnection loop of the SSH client
(`pkg/dgclient/run.go`), together with theorems characterising their
observable behaviour.

Embedding conventions:
* Go `int` values are modelled as `Int`; `uint64` counters carry an explicit
  `% 2^64`; the 64-bit wrap of CSI parameter accumulation is modelled by
  `wrap64`.
* A Go slice index `s[i]` panics when `i < 0 ∨ i ≥ len(s)`; every operation
  that can reach such an index is modelled in `Option`, with `none` meaning
  the Go program panics.  Loops are folded with `Option.bind`, so a panic in
  any iteration aborts the whole call, exactly as in Go.
* Screen buffers are `List (List Cell)`; the `width`/`height` fields of the
  Go structs are separate from the actual list lengths, as in the source,
  and their agreement is an invariant to be proved, not assumed.
-/

set_option maxHeartbeats 1000000

namespace tui

/-- `Color` from pkg/tui/emulator.go: R,G,B are `uint8` (kept in 0..255 by
construction), plus the indexed-color fields. -/
structure Color where
  R : Nat
  G : Nat
  B : Nat
  IsIndex : Bool
  Index : Nat
deriving DecidableEq, Repr

/-- `CellAttributes` from pkg/tui/emulator.go. -/
structure CellAttributes where
  Foreground : Color
  Background : Color
  Bold : Bool
  Underline : Bool
  Reverse : Bool
deriving DecidableEq, Repr

/-- `Cell` from pkg/tui/emulator.go. -/
structure Cell where
  Char : Char
  Attr : CellAttributes
deriving DecidableEq, Repr

/-- `ParserState` from pkg/tui/emulator.go. -/
inductive ParserState where
  | normal
  | escape
  | csi
  | osc
deriving DecidableEq, Repr

/-- `AnsiParser` from pkg/tui/emulator.go.  `paramIndex` only ever grows by
one per `;` byte; we model it as `Nat`. -/
structure AnsiParser where
  state : ParserState
  buffer : List Nat
  params : List Int
  paramIndex : Nat
deriving DecidableEq, Repr

/-- `TerminalEmulator` from pkg/tui/emulator.go (the mutex is concurrency
plumbing and is not part of the sequential state). -/
structure TerminalEmulator where
  width : Int
  height : Int
  screen : List (List Cell)
  cursorX : Int
  cursorY : Int
  savedCursorX : Int
  savedCursorY : Int
  parser : AnsiParser
  scrollTop : Int
  scrollBottom : Int
  currentAttr : CellAttributes
deriving DecidableEq, Repr

/-- The attribute installed by `NewTerminalEmulator` and SGR 0:
white foreground, zero-valued background. -/
def defaultAttr : CellAttributes :=
  { Foreground := ⟨255, 255, 255, false, 0⟩
    Background := ⟨0, 0, 0, false, 0⟩
    Bold := false, Underline := false, Reverse := false }

/-- A blank cell `{Char: ' ', Attr: attr}`. -/
def blankCell (attr : CellAttributes) : Cell := ⟨' ', attr⟩

/-- `NewTerminalEmulator(width, height)`. -/
def NewTerminalEmulator (w h : Nat) : TerminalEmulator :=
  { width := w
    height := h
    screen := List.replicate h (List.replicate w (blankCell defaultAttr))
    cursorX := 0, cursorY := 0
    savedCursorX := 0, savedCursorY := 0
    parser := ⟨.normal, [], [], 0⟩
    scrollTop := 0
    scrollBottom := (h : Int) - 1
    currentAttr := defaultAttr }

/-- Two's-complement wrap of a Go `int` (64-bit) arithmetic result. -/
def wrap64 (n : Int) : Int := (n + 2 ^ 63) % 2 ^ 64 - 2 ^ 63

/-- The Int values `a, a+1, ..., b-1`, i.e. the indices of the Go loop
`for y := a; y < b; y++`. -/
def intRange (a b : Int) : List Int :=
  (List.range (b - a).toNat).map (fun (i : Nat) => a + (i : Int))

/-- One bounds-checked cell store `screen[y][x] = c`; `none` is a Go panic. -/
def setCell (sc : List (List Cell)) (y x : Int) (c : Cell) :
    Option (List (List Cell)) :=
  if 0 ≤ y ∧ y < (sc.length : Int) then
    let row := sc.getD y.toNat []
    if 0 ≤ x ∧ x < (row.length : Int) then
      some (sc.set y.toNat (row.set x.toNat c))
    else none
  else none

/-- The Go loop `for x := a; x < b; x++ { row[x] = c }` on a single row.
If the range is empty the row is never indexed; otherwise any index outside
the row is a panic (`none`). -/
def rowWriteRange (row : List Cell) (a b : Int) (c : Cell) :
    Option (List Cell) :=
  if b ≤ a then some row
  else if 0 ≤ a ∧ b ≤ (row.length : Int) then
    some ((List.range row.length).map (fun (i : Nat) =>
      if a ≤ (i : Int) ∧ (i : Int) < b then c else row.getD i c))
  else none

/-- The Go loop `for x := a; x < b; x++ { screen[y][x] = c }`.  When the
range is empty `screen[y]` is never evaluated, hence no panic even for an
out-of-range `y`. -/
def screenWriteRow (sc : List (List Cell)) (y a b : Int) (c : Cell) :
    Option (List (List Cell)) :=
  if b ≤ a then some sc
  else if 0 ≤ y ∧ y < (sc.length : Int) then
    (rowWriteRange (sc.getD y.toNat []) a b c).map (fun r => sc.set y.toNat r)
  else none

/-- Go `copy(dst, src)` on cell rows: overwrites the first
`min (len dst) (len src)` entries of `dst`. -/
def copyRow (dst src : List Cell) : List Cell :=
  let m := min dst.length src.length
  src.take m ++ dst.drop m

/-- One iteration `copy(screen[y], screen[y+1])` of `scroll`. -/
def shiftRowUp (sc : List (List Cell)) (y : Int) :
    Option (List (List Cell)) :=
  if 0 ≤ y ∧ y + 1 < (sc.length : Int) then
    some (sc.set y.toNat (copyRow (sc.getD y.toNat []) (sc.getD (y + 1).toNat [])))
  else none

/-- One iteration `copy(screen[y], screen[y-1])` of `reverseScroll`. -/
def shiftRowDown (sc : List (List Cell)) (y : Int) :
    Option (List (List Cell)) :=
  if 1 ≤ y ∧ y < (sc.length : Int) then
    some (sc.set y.toNat (copyRow (sc.getD y.toNat []) (sc.getD (y - 1).toNat [])))
  else none

/-- `TerminalEmulator.scroll`: shift rows `[scrollTop, scrollBottom)` up by
one, then blank row `scrollBottom` at the current attribute. -/
def scroll (st : TerminalEmulator) : Option TerminalEmulator := do
  let sc ← (intRange st.scrollTop st.scrollBottom).foldlM shiftRowUp st.screen
  let sc ← screenWriteRow sc st.scrollBottom 0 st.width (blankCell st.currentAttr)
  pure { st with screen := sc }

/-- `TerminalEmulator.reverseScroll`: shift rows `(scrollTop, scrollBottom]`
down by one (descending loop), then blank row `scrollTop`. -/
def reverseScroll (st : TerminalEmulator) : Option TerminalEmulator := do
  let sc ← ((intRange (st.scrollTop + 1) (st.scrollBottom + 1)).reverse).foldlM
    shiftRowDown st.screen
  let sc ← screenWriteRow sc st.scrollTop 0 st.width (blankCell st.currentAttr)
  pure { st with screen := sc }

/-- `TerminalEmulator.newline`. -/
def newline (st : TerminalEmulator) : Option TerminalEmulator :=
  let st := { st with cursorX := 0, cursorY := st.cursorY + 1 }
  if st.cursorY > st.scrollBottom then
    (scroll st).map (fun s => { s with cursorY := s.scrollBottom })
  else some st

/-- `TerminalEmulator.reverseNewline`. -/
def reverseNewline (st : TerminalEmulator) : Option TerminalEmulator :=
  let st := { st with cursorY := st.cursorY - 1 }
  if st.cursorY < st.scrollTop then
    (reverseScroll st).map (fun s => { s with cursorY := s.scrollTop })
  else some st

/-- `TerminalEmulator.putChar`. -/
def putChar (st : TerminalEmulator) (ch : Char) : Option TerminalEmulator :=
  if 0 ≤ st.cursorY ∧ st.cursorY < st.height ∧ 0 ≤ st.cursorX ∧ st.cursorX < st.width then do
    let sc ← setCell st.screen st.cursorY st.cursorX ⟨ch, st.currentAttr⟩
    let st := { st with screen := sc, cursorX := st.cursorX + 1 }
    if st.cursorX ≥ st.width then newline st else pure st
  else some st

/-- `TerminalEmulator.eraseScreen`. -/
def eraseScreen (st : TerminalEmulator) : Option TerminalEmulator := do
  let sc ← (intRange 0 st.height).foldlM
    (fun sc y => screenWriteRow sc y 0 st.width (blankCell st.currentAttr)) st.screen
  pure { st with screen := sc }

/-- `TerminalEmulator.eraseFromCursorToEnd`. -/
def eraseFromCursorToEnd (st : TerminalEmulator) : Option TerminalEmulator := do
  let sc ← screenWriteRow st.screen st.cursorY st.cursorX st.width (blankCell st.currentAttr)
  let sc ← (intRange (st.cursorY + 1) st.height).foldlM
    (fun sc y => screenWriteRow sc y 0 st.width (blankCell st.currentAttr)) sc
  pure { st with screen := sc }

/-- `TerminalEmulator.eraseFromStartToCursor`. -/
def eraseFromStartToCursor (st : TerminalEmulator) : Option TerminalEmulator := do
  let sc ← (intRange 0 st.cursorY).foldlM
    (fun sc y => screenWriteRow sc y 0 st.width (blankCell st.currentAttr)) st.screen
  let sc ← screenWriteRow sc st.cursorY 0 (st.cursorX + 1) (blankCell st.currentAttr)
  pure { st with screen := sc }

/-- `TerminalEmulator.eraseEntireLine`. -/
def eraseEntireLine (st : TerminalEmulator) : Option TerminalEmulator :=
  (screenWriteRow st.screen st.cursorY 0 st.width (blankCell st.currentAttr)).map
    (fun sc => { st with screen := sc })

/-- `TerminalEmulator.eraseFromCursorToEndOfLine`. -/
def eraseFromCursorToEndOfLine (st : TerminalEmulator) : Option TerminalEmulator :=
  (screenWriteRow st.screen st.cursorY st.cursorX st.width (blankCell st.currentAttr)).map
    (fun sc => { st with screen := sc })

/-- `TerminalEmulator.eraseFromStartOfLineToCursor`. -/
def eraseFromStartOfLineToCursor (st : TerminalEmulator) : Option TerminalEmulator :=
  (screenWriteRow st.screen st.cursorY 0 (st.cursorX + 1) (blankCell st.currentAttr)).map
    (fun sc => { st with screen := sc })

/-- `TerminalEmulator.reset` (ESC `c`). -/
def reset (st : TerminalEmulator) : Option TerminalEmulator :=
  eraseScreen { st with
    cursorX := 0, cursorY := 0
    scrollTop := 0, scrollBottom := st.height - 1
    currentAttr := defaultAttr }

/-- `getANSIColor` from pkg/tui/emulator.go. -/
def getANSIColor (code : Int) : Color :=
  let colors : List Color :=
    [⟨0, 0, 0, false, 0⟩, ⟨128, 0, 0, false, 0⟩, ⟨0, 128, 0, false, 0⟩,
     ⟨128, 128, 0, false, 0⟩, ⟨0, 0, 128, false, 0⟩, ⟨128, 0, 128, false, 0⟩,
     ⟨0, 128, 128, false, 0⟩, ⟨192, 192, 192, false, 0⟩]
  if 0 ≤ code ∧ code < (colors.length : Int) then
    colors.getD code.toNat ⟨255, 255, 255, false, 0⟩
  else ⟨255, 255, 255, false, 0⟩

/-- One SGR parameter applied to the current attribute
(`processGraphicRendition` loop body). -/
def applySGR (attr : CellAttributes) (p : Int) : CellAttributes :=
  if p = 0 then defaultAttr
  else if p = 1 then { attr with Bold := true }
  else if p = 4 then { attr with Underline := true }
  else if p = 7 then { attr with Reverse := true }
  else if p = 22 then { attr with Bold := false }
  else if p = 24 then { attr with Underline := false }
  else if p = 27 then { attr with Reverse := false }
  else if 30 ≤ p ∧ p ≤ 37 then { attr with Foreground := getANSIColor (p - 30) }
  else if 40 ≤ p ∧ p ≤ 47 then { attr with Background := getANSIColor (p - 40) }
  else attr

/-- `TerminalEmulator.processGraphicRendition`. -/
def processGraphicRendition (st : TerminalEmulator) (params : List Int) :
    TerminalEmulator :=
  let ps := if params = [] then [0] else params
  { st with currentAttr := ps.foldl applySGR st.currentAttr }

/-- The `if len(params) > i && params[i] > 0 { v = params[i] }` pattern of
`executeCSICommand`: parameter `i` when present and positive, else the
default `d`. -/
def csiParam (params : List Int) (i : Nat) (d : Int) : Int :=
  if i < params.length ∧ 0 < params.getD i 0 then params.getD i 0 else d

/-- The `mode` computation of the `J`/`K` commands:
`mode := 0; if len(params) > 0 { mode = params[0] }`. -/
def csiMode (params : List Int) : Int :=
  if 0 < params.length then params.getD 0 0 else 0

/-- `TerminalEmulator.executeCSICommand` (Go `switch` on the terminating
byte: `A B C D H f J K m r`). -/
def executeCSICommand (st : TerminalEmulator) (cmd : Nat) :
    Option TerminalEmulator :=
  match cmd with
  | 65 =>  -- 'A' cursor up
    some { st with cursorY := max 0 (st.cursorY - csiParam st.parser.params 0 1) }
  | 66 =>  -- 'B' cursor down
    some { st with cursorY := min (st.height - 1) (st.cursorY + csiParam st.parser.params 0 1) }
  | 67 =>  -- 'C' cursor forward
    some { st with cursorX := min (st.width - 1) (st.cursorX + csiParam st.parser.params 0 1) }
  | 68 =>  -- 'D' cursor backward
    some { st with cursorX := max 0 (st.cursorX - csiParam st.parser.params 0 1) }
  | 72 | 102 =>  -- 'H' / 'f' cursor position
    some { st with
      cursorY := min (st.height - 1) (max 0 (csiParam st.parser.params 0 1 - 1))
      cursorX := min (st.width - 1) (max 0 (csiParam st.parser.params 1 1 - 1)) }
  | 74 =>  -- 'J' erase display
    if csiMode st.parser.params = 0 then eraseFromCursorToEnd st
    else if csiMode st.parser.params = 1 then eraseFromStartToCursor st
    else if csiMode st.parser.params = 2 then eraseScreen st
    else some st
  | 75 =>  -- 'K' erase line
    if csiMode st.parser.params = 0 then eraseFromCursorToEndOfLine st
    else if csiMode st.parser.params = 1 then eraseFromStartOfLineToCursor st
    else if csiMode st.parser.params = 2 then eraseEntireLine st
    else some st
  | 109 =>  -- 'm' SGR
    some (processGraphicRendition st st.parser.params)
  | 114 =>  -- 'r' set scrolling region
    some { st with
      scrollTop := max 0 (min (st.height - 1) (csiParam st.parser.params 0 1 - 1))
      scrollBottom := max 0 (min (st.height - 1) (csiParam st.parser.params 1 st.height - 1)) }
  | _ => some st

/-- `TerminalEmulator.processNormalByte` (Go `switch` on the byte). -/
def processNormalByte (st : TerminalEmulator) (b : Nat) :
    Option TerminalEmulator :=
  match b with
  | 27 =>  -- ESC
    some { st with parser := { st.parser with state := .escape, buffer := [] } }
  | 13 =>  -- CR
    some { st with cursorX := 0 }
  | 10 =>  -- LF
    newline st
  | 8 =>   -- BS
    some (if st.cursorX > 0 then { st with cursorX := st.cursorX - 1 } else st)
  | 9 =>   -- TAB
    let x := (Int.tdiv st.cursorX 8 + 1) * 8
    some { st with cursorX := if x ≥ st.width then st.width - 1 else x }
  | 7 =>   -- BEL
    some st
  | _ =>
    if b ≥ 32 then putChar st (Char.ofNat b) else some st

/-- `TerminalEmulator.processEscapeByte` (Go `switch` on the byte). -/
def processEscapeByte (st : TerminalEmulator) (b : Nat) :
    Option TerminalEmulator :=
  match b with
  | 91 =>  -- '['
    some { st with parser := { st.parser with state := .csi, params := [], paramIndex := 0 } }
  | 93 =>  -- ']'
    some { st with parser := { st.parser with state := .osc } }
  | 99 =>  -- 'c' reset
    (reset st).map (fun s => { s with parser := { s.parser with state := .normal } })
  | 68 =>  -- 'D' index
    (newline st).map (fun s => { s with parser := { s.parser with state := .normal } })
  | 77 =>  -- 'M' reverse index
    (reverseNewline st).map (fun s => { s with parser := { s.parser with state := .normal } })
  | 55 =>  -- '7' save cursor
    some { st with savedCursorX := st.cursorX, savedCursorY := st.cursorY
                   parser := { st.parser with state := .normal } }
  | 56 =>  -- '8' restore cursor
    some { st with cursorX := st.savedCursorX, cursorY := st.savedCursorY
                   parser := { st.parser with state := .normal } }
  | _ =>
    some { st with parser := { st.parser with state := .normal } }

/-- The `if len(params) <= paramIndex { params = append(params, 0) }` step
of `processCSIByte`. -/
def csiGrownParams (parser : AnsiParser) : List Int :=
  if parser.params.length ≤ parser.paramIndex then parser.params ++ [0]
  else parser.params

/-- `TerminalEmulator.processCSIByte`.  The source appends at most one zero
before reading and writing `params[paramIndex]`; after consecutive `;`
bytes that index is still out of range — a panic, modelled by `none`. -/
def processCSIByte (st : TerminalEmulator) (b : Nat) :
    Option TerminalEmulator :=
  if 48 ≤ b ∧ b ≤ 57 then
    if st.parser.paramIndex < (csiGrownParams st.parser).length then
      some { st with parser := { st.parser with
        params := (csiGrownParams st.parser).set st.parser.paramIndex
          (wrap64 ((csiGrownParams st.parser).getD st.parser.paramIndex 0 * 10
            + ((b : Int) - 48))) } }
    else none
  else if b = 59 then -- ';'
    some { st with parser := { st.parser with paramIndex := st.parser.paramIndex + 1 } }
  else
    (executeCSICommand st b).map
      (fun s => { s with parser := { s.parser with state := .normal } })

/-- `TerminalEmulator.processOSCByte`. -/
def processOSCByte (st : TerminalEmulator) (b : Nat) :
    Option TerminalEmulator :=
  if b = 7 ∨ b = 27 then
    some { st with parser := { st.parser with state := .normal } }
  else some st

/-- `TerminalEmulator.processByte`. -/
def processByte (st : TerminalEmulator) (b : Nat) : Option TerminalEmulator :=
  match st.parser.state with
  | .normal => processNormalByte st b
  | .escape => processEscapeByte st b
  | .csi => processCSIByte st b
  | .osc => processOSCByte st b

/-- `TerminalEmulator.ProcessData`: process each byte in order; a panic in
any byte aborts the call. -/
def ProcessData (st : TerminalEmulator) (data : List Nat) :
    Option TerminalEmulator :=
  data.foldlM processByte st

/-- `TerminalEmulator.Resize(width, height)`.  The new buffer is blank at
the current attribute, the overlapping top-left rectangle of the old
content is copied, the bottom margin is reset, and the cursor is clamped —
but neither the saved cursor nor `scrollTop` is touched. -/
def Resize (st : TerminalEmulator) (w h : Nat) : TerminalEmulator :=
  let blank := blankCell st.currentAttr
  let cw := (min (w : Int) st.width).toNat
  let sc := (List.range h).map (fun (y : Nat) =>
    if (y : Int) < min (h : Int) st.height then
      ((st.screen.getD y []).take cw ++ List.replicate w blank).take w
    else List.replicate w blank)
  { st with
    screen := sc
    width := w, height := h
    scrollBottom := (h : Int) - 1
    cursorX := min st.cursorX ((w : Int) - 1)
    cursorY := min st.cursorY ((h : Int) - 1) }

/-- Rectangularity of a screen buffer: `H` rows, each of width `W`. -/
def ScreenShape (H W : Nat) (sc : List (List Cell)) : Prop :=
  sc.length = H ∧ ∀ r ∈ sc, r.length = W

/-- All parts of the screen-buffer invariant except the cursor-column
bounds (the column is re-established separately because `newline` resets
it unconditionally). -/
def EmuInvAux (st : TerminalEmulator) : Prop :=
  0 < st.width ∧ 0 < st.height ∧
  ScreenShape st.height.toNat st.width.toNat st.screen ∧
  0 ≤ st.cursorY ∧ st.cursorY < st.height ∧
  0 ≤ st.savedCursorX ∧ st.savedCursorX < st.width ∧
  0 ≤ st.savedCursorY ∧ st.savedCursorY < st.height ∧
  0 ≤ st.scrollTop ∧ st.scrollTop < st.height ∧
  0 ≤ st.scrollBottom ∧ st.scrollBottom < st.height

/-- The ScreenBuffer invariant of the spec, minus the `top ≤ bottom`
ordering (which the code does not maintain): cursor and saved cursor in
`[0,w)×[0,h)`, both scroll margins in `[0,h)`, and the buffer is an
`h`-by-`w` rectangle agreeing with the `width`/`height` fields. -/
def EmuInv (st : TerminalEmulator) : Prop :=
  EmuInvAux st ∧ 0 ≤ st.cursorX ∧ st.cursorX < st.width

end tui

namespace webui

/-- `Cell` from pkg/webui/rpc.go.  `Changed` is the internal dirty flag
(json:"-"); note `cellsDiffer` below does not compare it. -/
structure Cell where
  Char : Char
  FgColor : String
  BgColor : String
  Bold : Bool
  Inverse : Bool
  Blink : Bool
  TileX : Int
  TileY : Int
  Changed : Bool
deriving DecidableEq, Repr

/-- The zero value of `Cell` (Go: rune 0, empty strings, false, 0). -/
def zeroCell : Cell := ⟨Char.ofNat 0, "", "", false, false, false, 0, 0, false⟩

/-- `GameState` from pkg/webui/rpc.go.  `Version` is a `uint64`; its value
is kept below `2^64` by the explicit wrap in `UpdateState`. -/
structure GameState where
  Buffer : List (List Cell)
  Width : Int
  Height : Int
  CursorX : Int
  CursorY : Int
  Version : Nat
  Timestamp : Int
deriving DecidableEq, Repr

/-- `CellDiff` from pkg/webui/rpc.go. -/
structure CellDiff where
  X : Int
  Y : Int
  Cell : Cell
deriving DecidableEq, Repr

/-- `StateDiff` from pkg/webui/rpc.go. -/
structure StateDiff where
  Version : Nat
  Changes : List CellDiff
  CursorX : Int
  CursorY : Int
  Timestamp : Int
deriving DecidableEq, Repr

/-- `Buffer[y][x]` lookup.  The snapshots handled by the state manager are
produced by `WebView.getCurrentState` and are always rectangular, so the
lookup never leaves the buffer under the well-formedness assumptions of the
theorems below; out-of-range reads default to `zeroCell`. -/
def cellAt (s : GameState) (y x : Int) : Cell :=
  (s.Buffer.getD y.toNat []).getD x.toNat zeroCell

/-- Rectangularity of a snapshot: the buffer agrees with the `Width` and
`Height` fields. -/
def StateWF (s : GameState) : Prop :=
  0 ≤ s.Width ∧ 0 ≤ s.Height ∧
  s.Buffer.length = s.Height.toNat ∧ ∀ r ∈ s.Buffer, r.length = s.Width.toNat

/-- `StateManager.cellsDiffer`: every attribute except the internal
`Changed` flag. -/
def cellsDiffer (a b : Cell) : Bool :=
  a.Char != b.Char || a.FgColor != b.FgColor || a.BgColor != b.BgColor ||
  a.Bold != b.Bold || a.Inverse != b.Inverse || a.Blink != b.Blink ||
  a.TileX != b.TileX || a.TileY != b.TileY

/-- `StateManager.generateDiff`: the cell-by-cell comparison over the
overlapping rectangle, followed by the newly-added cells when the new
snapshot grew in either dimension. -/
def generateDiff (oldState newState : GameState) : StateDiff :=
  let maxY := min oldState.Height newState.Height
  let maxX := min oldState.Width newState.Width
  let overlap := (tui.intRange 0 maxY).flatMap (fun y =>
    (tui.intRange 0 maxX).filterMap (fun x =>
      if cellsDiffer (cellAt oldState y x) (cellAt newState y x) then
        some ⟨x, y, cellAt newState y x⟩
      else none))
  let grown := if oldState.Height < newState.Height ∨ oldState.Width < newState.Width then
    (tui.intRange 0 newState.Height).flatMap (fun y =>
      (tui.intRange 0 newState.Width).filterMap (fun x =>
        if oldState.Height ≤ y ∨ oldState.Width ≤ x then
          some ⟨x, y, cellAt newState y x⟩
        else none))
  else []
  { Version := newState.Version
    Changes := overlap ++ grown
    CursorX := newState.CursorX
    CursorY := newState.CursorY
    Timestamp := newState.Timestamp }

/-- A buffered one-slot notification channel: `none` when empty. -/
abbrev WaiterChan := Option StateDiff

/-- `StateManager` from pkg/webui/rpc.go: current snapshot, `uint64`
version, and the waiter table keyed by requested version.  The table is an
association list with unique keys, standing for the Go map. -/
structure StateManager where
  currentState : Option GameState
  version : Nat
  waiters : List (Nat × WaiterChan)
deriving DecidableEq, Repr

/-- `NewStateManager()`. -/
def NewStateManager : StateManager := ⟨none, 0, []⟩

/-- Go map assignment `m[k] = x` on an association list. -/
def mapSet {α : Type} (ws : List (Nat × α)) (k : Nat) (x : α) : List (Nat × α) :=
  if ws.any (fun w => w.1 = k) then
    ws.map (fun w => if w.1 = k then (k, x) else w)
  else ws ++ [(k, x)]

/-- `StateManager.notifyWaiters`: non-blocking send of the diff to every
waiter registered at a version smaller than the diff's; a full channel is
skipped. -/
def notifyWaiters (ws : List (Nat × WaiterChan)) (d : StateDiff) :
    List (Nat × WaiterChan) :=
  ws.map (fun w => if w.1 < d.Version ∧ w.2 = none then (w.1, some d) else w)

/-- `StateManager.UpdateState`: increment the (wrapping) version counter,
stamp and store the snapshot, and — only if a previous snapshot existed —
generate a diff and notify the waiters. -/
def UpdateState (sm : StateManager) (state : GameState) : StateManager :=
  let newVersion := (sm.version + 1) % 2 ^ 64
  let stamped := { state with Version := newVersion }
  match sm.currentState with
  | some old =>
      { currentState := some stamped
        version := newVersion
        waiters := notifyWaiters sm.waiters (generateDiff old stamped) }
  | none =>
      { currentState := some stamped
        version := newVersion
        waiters := sm.waiters }

/-- `StateManager.GetCurrentVersion`. -/
def GetCurrentVersion (sm : StateManager) : Nat := sm.version

/-- The full-snapshot diff built by `generateDiffFromVersion`: every cell
of the current snapshot is listed as changed. -/
def fullStateDiff (s : GameState) : StateDiff :=
  { Version := s.Version
    Changes := (tui.intRange 0 s.Height).flatMap (fun y =>
      (tui.intRange 0 s.Width).map (fun x => ⟨x, y, cellAt s y x⟩))
    CursorX := s.CursorX
    CursorY := s.CursorY
    Timestamp := s.Timestamp }

/-- `StateManager.generateDiffFromVersion`: `nil` when there is no current
snapshot, else the full snapshot as a diff (no historical deltas). -/
def generateDiffFromVersion (sm : StateManager) : Option StateDiff :=
  sm.currentState.map fullStateDiff

/-- The outcome of the first phase of `PollChanges` /
`PollChangesWithContext`: either an immediate return with
`generateDiffFromVersion` (client behind), or registration of a fresh
one-slot channel in the waiter table. -/
inductive PollOutcome where
  | immediate (d : Option StateDiff)
  | registered (sm : StateManager)
deriving DecidableEq, Repr

/-- The version comparison and dispatch shared by `PollChanges` and
`PollChangesWithContext`. -/
def pollChangesStep (sm : StateManager) (clientVersion : Nat) : PollOutcome :=
  if clientVersion < sm.version then .immediate (generateDiffFromVersion sm)
  else .registered { sm with waiters := mapSet sm.waiters clientVersion none }

/-- Iterated `UpdateState` over a list of snapshots. -/
def applyUpdates (sm : StateManager) (l : List GameState) : StateManager :=
  l.foldl UpdateState sm

/-- State managers reachable from `NewStateManager` through the public
operations: `UpdateState`, a poller registering in the waiter table
(`PollChanges`/`PollChangesWithContext` at a current version), and a poller
deleting its registration on exit. -/
inductive SMReachable : StateManager → Prop where
  | init : SMReachable NewStateManager
  | update {sm : StateManager} (s : GameState) (h : SMReachable sm) :
      SMReachable (UpdateState sm s)
  | register {sm : StateManager} (v : Nat) (h : SMReachable sm) :
      SMReachable { sm with waiters := mapSet sm.waiters v none }
  | unregister {sm : StateManager} (v : Nat) (h : SMReachable sm) :
      SMReachable { sm with waiters := sm.waiters.filter (fun w => w.1 ≠ v) }

/-- Version bookkeeping invariant of the state manager: a snapshot exists
as soon as the version is positive, and the stored snapshot is stamped
with the current version. -/
def SMInv (sm : StateManager) : Prop :=
  (sm.currentState = none → sm.version = 0) ∧
  ∀ s, sm.currentState = some s → s.Version = sm.version

/-! ### `WebView.HandleInput` (pkg/webui/rpc.go)

The input queue is the buffered Go channel `inputChan`.  `HandleInput` does
`select { case input := <-v.inputChan: return input, nil; default: return
nil, io.EOF }`: the receive case is ready exactly when the buffer is
non-empty or the channel is closed (a closed channel yields the zero value
`nil` with no error), and otherwise the `default` branch returns `io.EOF`
immediately — the call never blocks. -/

/-- The state of the `inputChan` buffered channel. -/
structure InputChan where
  buffer : List (List Nat)
  closed : Bool
deriving DecidableEq, Repr

/-- The error component of `HandleInput`'s result. -/
inductive InputErr where
  | eof
deriving DecidableEq, Repr

/-- `WebView.HandleInput`: returns `(bytes, error)` and the channel state
after the call.  `none` bytes is Go's `nil` slice. -/
def HandleInput (ch : InputChan) :
    (Option (List Nat) × Option InputErr) × InputChan :=
  match ch.buffer with
  | i :: rest => ((some i, none), { ch with buffer := rest })
  | [] =>
    if ch.closed then ((none, none), ch)       -- receive on closed channel
    else ((none, some .eof), ch)               -- default branch: nil, io.EOF

/-! ### The waiter table with explicit channel identities (claim C10)

`PollChanges` registers a fresh one-slot channel under its version key,
`notifyWaiters` sends to the channels currently in the table, and every
exit path of a poller deletes its key.  To reason about *which* poller is
woken we give each created channel an identity. -/

/-- Waiter table and channel store with explicit channel identities.
`waiters` maps a version key to a channel id; `chans` maps a channel id to
its one-slot buffer. -/
structure WaiterSys where
  waiters : List (Nat × Nat)
  chans : List (Nat × WaiterChan)
  nextId : Nat
deriving DecidableEq, Repr

/-- The operations touching the waiter table: `register v` is the
`sm.waiters[version] = waiterCh` step of a poller (with a freshly made
channel), `unregister v` is the deferred `delete(sm.waiters, version)`,
and `notify d` is `notifyWaiters`. -/
inductive WaiterOp where
  | register (v : Nat)
  | unregister (v : Nat)
  | notify (d : StateDiff)
deriving DecidableEq, Repr

/-- Channel-store lookup. -/
def chanLookup (cs : List (Nat × WaiterChan)) (id : Nat) : Option WaiterChan :=
  (cs.find? (fun c => c.1 = id)).map (fun c => c.2)

/-- Waiter-table lookup (`sm.waiters[version]` read). -/
def waiterLookup (ws : List (Nat × Nat)) (v : Nat) : Option Nat :=
  (ws.find? (fun w => w.1 = v)).map (fun w => w.2)

/-- One waiter-table operation. -/
def applyWaiterOp (W : WaiterSys) : WaiterOp → WaiterSys
  | .register v =>
      { waiters := mapSet W.waiters v W.nextId
        chans := (W.nextId, none) :: W.chans
        nextId := W.nextId + 1 }
  | .unregister v =>
      { W with waiters := W.waiters.filter (fun w => w.1 ≠ v) }
  | .notify d =>
      { W with chans := W.chans.map (fun c =>
          if (W.waiters.any (fun w => w.2 = c.1 ∧ w.1 < d.Version)) ∧ c.2 = none
          then (c.1, some d) else c) }

/-- Waiter systems reachable from the empty table. -/
inductive WaiterReachable : WaiterSys → Prop where
  | init : WaiterReachable ⟨[], [], 0⟩
  | step {W : WaiterSys} (op : WaiterOp) (h : WaiterReachable W) :
      WaiterReachable (applyWaiterOp W op)

/-- Structural invariant of the waiter system: unique version keys (it is a
Go map), distinct channels for distinct registrations, and all channel ids
below the freshness bound. -/
def WaiterInv (W : WaiterSys) : Prop :=
  (W.waiters.map Prod.fst).Nodup ∧
  (W.waiters.map Prod.snd).Nodup ∧
  ∀ w ∈ W.waiters, w.2 < W.nextId

end webui

namespace dgclient

/-- The reconnection-relevant configuration of `ClientConfig`:
`MaxReconnectAttempts` is a Go `int`, `ReconnectDelay` a duration.  The
delay is modelled as a rational so that the Go
`time.Duration(float64(delay) * 1.5)` backoff step is the exact
multiplication by 3/2. -/
structure ReconnectConfig where
  MaxReconnectAttempts : Int
  ReconnectDelay : ℚ
deriving DecidableEq, Repr

/-- The loop `for i := 0; i < maxAttempts; i++` of
`Client.handleReconnection`, with `fuel = maxAttempts - i` as the
structural recursion measure.  `ok i` tells whether the `Connect` attempt
with index `i` succeeds.  Returns `(success, number of Connect attempts
issued, the sleeps performed in order)`. -/
def reconnectLoop (ok : Nat → Bool) : Nat → ℚ → Nat → Bool × Nat × List ℚ
  | _, _, 0 => (false, 0, [])
  | i, delay, fuel + 1 =>
    let sl : List ℚ := if 0 < i then [delay] else []
    let d' : ℚ := if 0 < i then delay * (3 / 2) else delay
    if ok i then (true, 1, sl)
    else
      let r := reconnectLoop ok (i + 1) d' fuel
      (r.1, r.2.1 + 1, sl ++ r.2.2)

/-- `Client.handleReconnection`: fails immediately (zero attempts) when
`MaxReconnectAttempts <= 0`, else runs the retry loop from attempt index 0
at the configured base delay.  The boolean is `true` iff reconnection
succeeded; `false` means the routine returns an error. -/
def handleReconnection (cfg : ReconnectConfig) (ok : Nat → Bool) :
    Bool × Nat × List ℚ :=
  if cfg.MaxReconnectAttempts ≤ 0 then (false, 0, [])
  else reconnectLoop ok 0 cfg.ReconnectDelay cfg.MaxReconnectAttempts.toNat

end dgclient

/-! ## Lemmas and invariant proofs for the terminal emulator -/

namespace tui

theorem copyRow_length (dst src : List Cell) :
    (copyRow dst src).length = dst.length := by
  simp only [copyRow, List.length_append, List.length_take, List.length_drop]
  omega

theorem rowWriteRange_length {row : List Cell} {a b : Int} {c : Cell} {row' : List Cell}
    (h : rowWriteRange row a b c = some row') : row'.length = row.length := by
  unfold rowWriteRange at h
  split at h
  · simp_all
  · split at h
    · simp only [Option.some.injEq] at h
      subst h
      simp
    · simp_all

theorem getD_mem {α : Type} (l : List α) (n : Nat) (d : α) (h : n < l.length) :
    l.getD n d ∈ l := by
  rw [List.getD_eq_getElem l d h]
  exact List.getElem_mem h

theorem set_shape {H W : Nat} {sc : List (List Cell)} {r' : List Cell} {n : Nat}
    (hs : ScreenShape H W sc) (hr : r'.length = W) :
    ScreenShape H W (sc.set n r') := by
  obtain ⟨h1, h2⟩ := hs
  refine ⟨by simpa using h1, fun r hmem => ?_⟩
  rcases List.mem_or_eq_of_mem_set hmem with h | h
  · exact h2 r h
  · subst h; exact hr

theorem screenWriteRow_shape {H W : Nat} {sc sc' : List (List Cell)} {y a b : Int} {c : Cell}
    (hs : ScreenShape H W sc) (h : screenWriteRow sc y a b c = some sc') :
    ScreenShape H W sc' := by
  unfold screenWriteRow at h
  split at h
  · simp_all
  · split at h
    · rename_i hy
      simp only [Option.map_eq_some'] at h
      obtain ⟨r', hr', hset⟩ := h
      subst hset
      have hylt : y.toNat < sc.length := by dsimp only; omega
      have hrow : (sc.getD y.toNat []) ∈ sc := getD_mem _ _ _ hylt
      have hlen : (sc.getD y.toNat []).length = W := hs.2 _ hrow
      exact set_shape hs (by rw [rowWriteRange_length hr', hlen])
    · simp_all

theorem shiftRowUp_shape {H W : Nat} {sc sc' : List (List Cell)} {y : Int}
    (hs : ScreenShape H W sc) (h : shiftRowUp sc y = some sc') :
    ScreenShape H W sc' := by
  unfold shiftRowUp at h
  split at h
  · rename_i hy
    simp only [Option.some.injEq] at h
    subst h
    have hylt : y.toNat < sc.length := by dsimp only; omega
    have hrow : (sc.getD y.toNat []) ∈ sc := getD_mem _ _ _ hylt
    exact set_shape hs (by rw [copyRow_length]; exact hs.2 _ hrow)
  · simp_all

theorem shiftRowDown_shape {H W : Nat} {sc sc' : List (List Cell)} {y : Int}
    (hs : ScreenShape H W sc) (h : shiftRowDown sc y = some sc') :
    ScreenShape H W sc' := by
  unfold shiftRowDown at h
  split at h
  · rename_i hy
    simp only [Option.some.injEq] at h
    subst h
    have hylt : y.toNat < sc.length := by dsimp only; omega
    have hrow : (sc.getD y.toNat []) ∈ sc := getD_mem _ _ _ hylt
    exact set_shape hs (by rw [copyRow_length]; exact hs.2 _ hrow)
  · simp_all

theorem setCell_shape {H W : Nat} {sc sc' : List (List Cell)} {y x : Int} {c : Cell}
    (hs : ScreenShape H W sc) (h : setCell sc y x c = some sc') :
    ScreenShape H W sc' := by
  unfold setCell at h
  simp only at h
  split at h
  · rename_i hy
    split at h
    · simp only [Option.some.injEq] at h
      subst h
      have hylt : y.toNat < sc.length := by dsimp only; omega
      have hrow : (sc.getD y.toNat []) ∈ sc := getD_mem _ _ _ hylt
      exact set_shape hs (by simpa using hs.2 _ hrow)
    · simp_all
  · simp_all

/-- Generic preservation of a predicate by an `Option`-valued left fold. -/
theorem foldlM_option_preserve {σ ι : Type} (P : σ → Prop) (f : σ → ι → Option σ)
    (hf : ∀ s i s', P s → f s i = some s' → P s') :
    ∀ (l : List ι) (s s' : σ), P s → l.foldlM f s = some s' → P s'
  | [], s, s', hP, h => by
    simp only [List.foldlM_nil, Option.pure_def, Option.some.injEq] at h
    exact h ▸ hP
  | i :: l, s, s', hP, h => by
    rw [List.foldlM_cons] at h
    rcases Option.bind_eq_some.mp h with ⟨s1, h1, h2⟩
    exact foldlM_option_preserve P f hf l s1 s' (hf s i s1 hP h1) h2

theorem scroll_spec {st st' : TerminalEmulator} (h : scroll st = some st') :
    ∃ sc, st' = { st with screen := sc } ∧
      ∀ H W, ScreenShape H W st.screen → ScreenShape H W sc := by
  unfold scroll at h
  simp only [bind, Option.bind_eq_some, pure, Option.some.injEq] at h
  obtain ⟨sc1, h1, sc2, h2, heq⟩ := h
  refine ⟨sc2, heq.symm, fun H W hs => ?_⟩
  exact screenWriteRow_shape
    (foldlM_option_preserve (ScreenShape H W) shiftRowUp
      (fun s i s' hP hf => shiftRowUp_shape hP hf) _ _ _ hs h1) h2

theorem reverseScroll_spec {st st' : TerminalEmulator} (h : reverseScroll st = some st') :
    ∃ sc, st' = { st with screen := sc } ∧
      ∀ H W, ScreenShape H W st.screen → ScreenShape H W sc := by
  unfold reverseScroll at h
  simp only [bind, Option.bind_eq_some, pure, Option.some.injEq] at h
  obtain ⟨sc1, h1, sc2, h2, heq⟩ := h
  refine ⟨sc2, heq.symm, fun H W hs => ?_⟩
  exact screenWriteRow_shape
    (foldlM_option_preserve (ScreenShape H W) shiftRowDown
      (fun s i s' hP hf => shiftRowDown_shape hP hf) _ _ _ hs h1) h2

theorem eraseScreen_spec {st st' : TerminalEmulator} (h : eraseScreen st = some st') :
    ∃ sc, st' = { st with screen := sc } ∧
      ∀ H W, ScreenShape H W st.screen → ScreenShape H W sc := by
  unfold eraseScreen at h
  simp only [bind, Option.bind_eq_some, pure, Option.some.injEq] at h
  obtain ⟨sc1, h1, heq⟩ := h
  refine ⟨sc1, heq.symm, fun H W hs => ?_⟩
  exact foldlM_option_preserve (ScreenShape H W) _
    (fun s i s' hP hf => screenWriteRow_shape hP hf) _ _ _ hs h1

theorem eraseFromCursorToEnd_spec {st st' : TerminalEmulator}
    (h : eraseFromCursorToEnd st = some st') :
    ∃ sc, st' = { st with screen := sc } ∧
      ∀ H W, ScreenShape H W st.screen → ScreenShape H W sc := by
  unfold eraseFromCursorToEnd at h
  simp only [bind, Option.bind_eq_some, pure, Option.some.injEq] at h
  obtain ⟨sc1, h1, sc2, h2, heq⟩ := h
  refine ⟨sc2, heq.symm, fun H W hs => ?_⟩
  exact foldlM_option_preserve (ScreenShape H W) _
    (fun s i s' hP hf => screenWriteRow_shape hP hf) _ _ _
    (screenWriteRow_shape hs h1) h2

theorem eraseFromStartToCursor_spec {st st' : TerminalEmulator}
    (h : eraseFromStartToCursor st = some st') :
    ∃ sc, st' = { st with screen := sc } ∧
      ∀ H W, ScreenShape H W st.screen → ScreenShape H W sc := by
  unfold eraseFromStartToCursor at h
  simp only [bind, Option.bind_eq_some, pure, Option.some.injEq] at h
  obtain ⟨sc1, h1, sc2, h2, heq⟩ := h
  refine ⟨sc2, heq.symm, fun H W hs => ?_⟩
  exact screenWriteRow_shape
    (foldlM_option_preserve (ScreenShape H W) _
      (fun s i s' hP hf => screenWriteRow_shape hP hf) _ _ _ hs h1) h2

theorem eraseEntireLine_spec {st st' : TerminalEmulator}
    (h : eraseEntireLine st = some st') :
    ∃ sc, st' = { st with screen := sc } ∧
      ∀ H W, ScreenShape H W st.screen → ScreenShape H W sc := by
  unfold eraseEntireLine at h
  simp only [Option.map_eq_some'] at h
  obtain ⟨sc1, h1, heq⟩ := h
  exact ⟨sc1, heq.symm, fun H W hs => screenWriteRow_shape hs h1⟩

theorem eraseFromCursorToEndOfLine_spec {st st' : TerminalEmulator}
    (h : eraseFromCursorToEndOfLine st = some st') :
    ∃ sc, st' = { st with screen := sc } ∧
      ∀ H W, ScreenShape H W st.screen → ScreenShape H W sc := by
  unfold eraseFromCursorToEndOfLine at h
  simp only [Option.map_eq_some'] at h
  obtain ⟨sc1, h1, heq⟩ := h
  exact ⟨sc1, heq.symm, fun H W hs => screenWriteRow_shape hs h1⟩

theorem eraseFromStartOfLineToCursor_spec {st st' : TerminalEmulator}
    (h : eraseFromStartOfLineToCursor st = some st') :
    ∃ sc, st' = { st with screen := sc } ∧
      ∀ H W, ScreenShape H W st.screen → ScreenShape H W sc := by
  unfold eraseFromStartOfLineToCursor at h
  simp only [Option.map_eq_some'] at h
  obtain ⟨sc1, h1, heq⟩ := h
  exact ⟨sc1, heq.symm, fun H W hs => screenWriteRow_shape hs h1⟩



theorem csiParam_pos {params : List Int} {i : Nat} {d : Int} (hd : 0 < d) :
    0 < csiParam params i d := by
  unfold csiParam
  split
  · rename_i hc; exact hc.2
  · exact hd

theorem newline_inv {st st' : TerminalEmulator} (h : EmuInvAux st)
    (he : newline st = some st') : EmuInv st' := by
  obtain ⟨hw, hh, hsh, hcy0, hcy1, hsx0, hsx1, hsy0, hsy1, hst0, hst1, hsb0, hsb1⟩ := h
  unfold newline at he
  dsimp only at he
  split at he
  · simp only [Option.map_eq_some'] at he
    obtain ⟨s1, hscroll, heq⟩ := he
    obtain ⟨sc, rfl, hpres⟩ := scroll_spec hscroll
    subst heq
    exact ⟨⟨hw, hh, hpres _ _ hsh, hsb0, hsb1, hsx0, hsx1, hsy0, hsy1, hst0, hst1,
      hsb0, hsb1⟩, le_refl 0, hw⟩
  · rename_i hle
    rw [Option.some_inj] at he
    subst he
    exact ⟨⟨hw, hh, hsh, by dsimp only; omega, by dsimp only; omega, hsx0, hsx1, hsy0, hsy1, hst0, hst1,
      hsb0, hsb1⟩, le_refl 0, hw⟩

theorem reverseNewline_inv {st st' : TerminalEmulator} (h : EmuInv st)
    (he : reverseNewline st = some st') : EmuInv st' := by
  obtain ⟨⟨hw, hh, hsh, hcy0, hcy1, hsx0, hsx1, hsy0, hsy1, hst0, hst1, hsb0, hsb1⟩,
    hcx0, hcx1⟩ := h
  unfold reverseNewline at he
  dsimp only at he
  split at he
  · simp only [Option.map_eq_some'] at he
    obtain ⟨s1, hscroll, heq⟩ := he
    obtain ⟨sc, rfl, hpres⟩ := reverseScroll_spec hscroll
    subst heq
    exact ⟨⟨hw, hh, hpres _ _ hsh, hst0, hst1, hsx0, hsx1, hsy0, hsy1, hst0, hst1,
      hsb0, hsb1⟩, hcx0, hcx1⟩
  · rename_i hge
    rw [Option.some_inj] at he
    subst he
    exact ⟨⟨hw, hh, hsh, by dsimp only; omega, by dsimp only; omega, hsx0, hsx1, hsy0, hsy1, hst0, hst1,
      hsb0, hsb1⟩, hcx0, hcx1⟩

theorem putChar_inv {st st' : TerminalEmulator} {ch : Char} (h : EmuInv st)
    (he : putChar st ch = some st') : EmuInv st' := by
  obtain ⟨⟨hw, hh, hsh, hcy0, hcy1, hsx0, hsx1, hsy0, hsy1, hst0, hst1, hsb0, hsb1⟩,
    hcx0, hcx1⟩ := h
  unfold putChar at he
  split at he
  · simp only [bind, Option.bind_eq_some] at he
    obtain ⟨sc, hset, he2⟩ := he
    have hsc := setCell_shape hsh hset
    dsimp only at he2
    split at he2
    · refine newline_inv ?_ he2
      exact ⟨hw, hh, hsc, hcy0, hcy1, hsx0, hsx1, hsy0, hsy1, hst0,
        hst1, hsb0, hsb1⟩
    · rename_i hlt
      simp only [pure, Option.some.injEq] at he2
      subst he2
      exact ⟨⟨hw, hh, hsc, hcy0, hcy1, hsx0, hsx1, hsy0, hsy1, hst0, hst1,
        hsb0, hsb1⟩, by dsimp only; omega, by dsimp only; omega⟩
  · simp only [Option.some.injEq] at he
    subst he
    exact ⟨⟨hw, hh, hsh, hcy0, hcy1, hsx0, hsx1, hsy0, hsy1, hst0, hst1,
      hsb0, hsb1⟩, hcx0, hcx1⟩

theorem executeCSICommand_inv {st st' : TerminalEmulator} {cmd : Nat} (h : EmuInv st)
    (he : executeCSICommand st cmd = some st') : EmuInv st' := by
  obtain ⟨⟨hw, hh, hsh, hcy0, hcy1, hsx0, hsx1, hsy0, hsy1, hst0, hst1, hsb0, hsb1⟩,
    hcx0, hcx1⟩ := h
  unfold executeCSICommand at he
  split at he
  -- 'A'
  · rw [Option.some_inj] at he
    subst he
    have hn := @csiParam_pos st.parser.params 0 1 one_pos
    exact ⟨⟨hw, hh, hsh, by dsimp only; omega, by dsimp only; omega, hsx0, hsx1,
      hsy0, hsy1, hst0, hst1, hsb0, hsb1⟩, hcx0, hcx1⟩
  -- 'B'
  · rw [Option.some_inj] at he
    subst he
    have hn := @csiParam_pos st.parser.params 0 1 one_pos
    exact ⟨⟨hw, hh, hsh, by dsimp only; omega, by dsimp only; omega, hsx0, hsx1,
      hsy0, hsy1, hst0, hst1, hsb0, hsb1⟩, hcx0, hcx1⟩
  -- 'C'
  · rw [Option.some_inj] at he
    subst he
    have hn := @csiParam_pos st.parser.params 0 1 one_pos
    exact ⟨⟨hw, hh, hsh, hcy0, hcy1, hsx0, hsx1, hsy0, hsy1, hst0, hst1,
      hsb0, hsb1⟩, by dsimp only; omega, by dsimp only; omega⟩
  -- 'D'
  · rw [Option.some_inj] at he
    subst he
    have hn := @csiParam_pos st.parser.params 0 1 one_pos
    exact ⟨⟨hw, hh, hsh, hcy0, hcy1, hsx0, hsx1, hsy0, hsy1, hst0, hst1,
      hsb0, hsb1⟩, by dsimp only; omega, by dsimp only; omega⟩
  -- 'H' / 'f'
  · rw [Option.some_inj] at he
    subst he
    exact ⟨⟨hw, hh, hsh, by dsimp only; omega, by dsimp only; omega, hsx0, hsx1,
      hsy0, hsy1, hst0, hst1, hsb0, hsb1⟩, by dsimp only; omega, by dsimp only; omega⟩
  -- 'f' (second pattern of the H/f arm)
  · rw [Option.some_inj] at he
    subst he
    exact ⟨⟨hw, hh, hsh, by dsimp only; omega, by dsimp only; omega, hsx0, hsx1,
      hsy0, hsy1, hst0, hst1, hsb0, hsb1⟩, by dsimp only; omega, by dsimp only; omega⟩
  -- 'J'
  · split_ifs at he <;>
    first
      | (obtain ⟨sc, rfl, hpres⟩ := eraseFromCursorToEnd_spec he
         exact ⟨⟨hw, hh, hpres _ _ hsh, hcy0, hcy1, hsx0, hsx1, hsy0, hsy1, hst0, hst1,
           hsb0, hsb1⟩, hcx0, hcx1⟩)
      | (obtain ⟨sc, rfl, hpres⟩ := eraseFromStartToCursor_spec he
         exact ⟨⟨hw, hh, hpres _ _ hsh, hcy0, hcy1, hsx0, hsx1, hsy0, hsy1, hst0, hst1,
           hsb0, hsb1⟩, hcx0, hcx1⟩)
      | (obtain ⟨sc, rfl, hpres⟩ := eraseScreen_spec he
         exact ⟨⟨hw, hh, hpres _ _ hsh, hcy0, hcy1, hsx0, hsx1, hsy0, hsy1, hst0, hst1,
           hsb0, hsb1⟩, hcx0, hcx1⟩)
      | (rw [Option.some_inj] at he
         subst he
         exact ⟨⟨hw, hh, hsh, hcy0, hcy1, hsx0, hsx1, hsy0, hsy1, hst0, hst1,
           hsb0, hsb1⟩, hcx0, hcx1⟩)
  -- 'K'
  · split_ifs at he <;>
    first
      | (obtain ⟨sc, rfl, hpres⟩ := eraseFromCursorToEndOfLine_spec he
         exact ⟨⟨hw, hh, hpres _ _ hsh, hcy0, hcy1, hsx0, hsx1, hsy0, hsy1, hst0, hst1,
           hsb0, hsb1⟩, hcx0, hcx1⟩)
      | (obtain ⟨sc, rfl, hpres⟩ := eraseFromStartOfLineToCursor_spec he
         exact ⟨⟨hw, hh, hpres _ _ hsh, hcy0, hcy1, hsx0, hsx1, hsy0, hsy1, hst0, hst1,
           hsb0, hsb1⟩, hcx0, hcx1⟩)
      | (obtain ⟨sc, rfl, hpres⟩ := eraseEntireLine_spec he
         exact ⟨⟨hw, hh, hpres _ _ hsh, hcy0, hcy1, hsx0, hsx1, hsy0, hsy1, hst0, hst1,
           hsb0, hsb1⟩, hcx0, hcx1⟩)
      | (rw [Option.some_inj] at he
         subst he
         exact ⟨⟨hw, hh, hsh, hcy0, hcy1, hsx0, hsx1, hsy0, hsy1, hst0, hst1,
           hsb0, hsb1⟩, hcx0, hcx1⟩)
  -- 'm'
  · rw [Option.some_inj] at he
    subst he
    exact ⟨⟨hw, hh, hsh, hcy0, hcy1, hsx0, hsx1, hsy0, hsy1, hst0, hst1,
      hsb0, hsb1⟩, hcx0, hcx1⟩
  -- 'r'
  · rw [Option.some_inj] at he
    subst he
    exact ⟨⟨hw, hh, hsh, hcy0, hcy1, hsx0, hsx1, hsy0, hsy1, by dsimp only; omega,
      by dsimp only; omega, by dsimp only; omega, by dsimp only; omega⟩, hcx0, hcx1⟩
  -- unknown command
  · rw [Option.some_inj] at he
    subst he
    exact ⟨⟨hw, hh, hsh, hcy0, hcy1, hsx0, hsx1, hsy0, hsy1, hst0, hst1,
      hsb0, hsb1⟩, hcx0, hcx1⟩

theorem EmuInv_parserUpdate {s : TerminalEmulator} {p : AnsiParser} (h : EmuInv s) :
    EmuInv { s with parser := p } := by
  obtain ⟨⟨hw, hh, hsh, hcy0, hcy1, hsx0, hsx1, hsy0, hsy1, hst0, hst1, hsb0, hsb1⟩,
    hcx0, hcx1⟩ := h
  exact ⟨⟨hw, hh, hsh, hcy0, hcy1, hsx0, hsx1, hsy0, hsy1, hst0, hst1, hsb0, hsb1⟩,
    hcx0, hcx1⟩

theorem processNormalByte_inv {st st' : TerminalEmulator} {b : Nat} (h : EmuInv st)
    (he : processNormalByte st b = some st') : EmuInv st' := by
  obtain ⟨⟨hw, hh, hsh, hcy0, hcy1, hsx0, hsx1, hsy0, hsy1, hst0, hst1, hsb0, hsb1⟩,
    hcx0, hcx1⟩ := h
  unfold processNormalByte at he
  split at he
  -- ESC
  · rw [Option.some_inj] at he
    subst he
    exact ⟨⟨hw, hh, hsh, hcy0, hcy1, hsx0, hsx1, hsy0, hsy1, hst0, hst1, hsb0, hsb1⟩,
      hcx0, hcx1⟩
  -- CR
  · rw [Option.some_inj] at he
    subst he
    exact ⟨⟨hw, hh, hsh, hcy0, hcy1, hsx0, hsx1, hsy0, hsy1, hst0, hst1, hsb0, hsb1⟩,
      le_refl 0, hw⟩
  -- LF
  · exact newline_inv ⟨hw, hh, hsh, hcy0, hcy1, hsx0, hsx1, hsy0, hsy1, hst0, hst1,
      hsb0, hsb1⟩ he
  -- BS
  · rw [Option.some_inj] at he
    subst he
    split
    · exact ⟨⟨hw, hh, hsh, hcy0, hcy1, hsx0, hsx1, hsy0, hsy1, hst0, hst1, hsb0, hsb1⟩,
        by dsimp only; omega, by dsimp only; omega⟩
    · exact ⟨⟨hw, hh, hsh, hcy0, hcy1, hsx0, hsx1, hsy0, hsy1, hst0, hst1, hsb0, hsb1⟩,
        hcx0, hcx1⟩
  -- TAB
  · rw [Option.some_inj] at he
    subst he
    have ht : 0 ≤ Int.tdiv st.cursorX 8 := Int.tdiv_nonneg hcx0 (by norm_num)
    exact ⟨⟨hw, hh, hsh, hcy0, hcy1, hsx0, hsx1, hsy0, hsy1, hst0, hst1, hsb0, hsb1⟩,
      by dsimp only; split <;> omega, by dsimp only; split <;> omega⟩
  -- BEL
  · rw [Option.some_inj] at he
    subst he
    exact ⟨⟨hw, hh, hsh, hcy0, hcy1, hsx0, hsx1, hsy0, hsy1, hst0, hst1, hsb0, hsb1⟩,
      hcx0, hcx1⟩
  -- printable or ignored
  · split at he
    · exact putChar_inv ⟨⟨hw, hh, hsh, hcy0, hcy1, hsx0, hsx1, hsy0, hsy1, hst0,
        hst1, hsb0, hsb1⟩, hcx0, hcx1⟩ he
    · rw [Option.some_inj] at he
      subst he
      exact ⟨⟨hw, hh, hsh, hcy0, hcy1, hsx0, hsx1, hsy0, hsy1, hst0, hst1, hsb0, hsb1⟩,
        hcx0, hcx1⟩

theorem processEscapeByte_inv {st st' : TerminalEmulator} {b : Nat} (h : EmuInv st)
    (he : processEscapeByte st b = some st') : EmuInv st' := by
  obtain ⟨⟨hw, hh, hsh, hcy0, hcy1, hsx0, hsx1, hsy0, hsy1, hst0, hst1, hsb0, hsb1⟩,
    hcx0, hcx1⟩ := h
  unfold processEscapeByte at he
  split at he
  -- '['
  · rw [Option.some_inj] at he
    subst he
    exact ⟨⟨hw, hh, hsh, hcy0, hcy1, hsx0, hsx1, hsy0, hsy1, hst0, hst1, hsb0, hsb1⟩,
      hcx0, hcx1⟩
  -- ']'
  · rw [Option.some_inj] at he
    subst he
    exact ⟨⟨hw, hh, hsh, hcy0, hcy1, hsx0, hsx1, hsy0, hsy1, hst0, hst1, hsb0, hsb1⟩,
      hcx0, hcx1⟩
  -- 'c' reset
  · simp only [Option.map_eq_some'] at he
    obtain ⟨s1, hr, heq⟩ := he
    subst heq
    unfold reset at hr
    obtain ⟨sc, rfl, hpres⟩ := eraseScreen_spec hr
    refine EmuInv_parserUpdate ?_
    exact ⟨⟨hw, hh, hpres _ _ hsh, le_refl 0, hh, hsx0, hsx1, hsy0, hsy1, le_refl 0, hh,
      by dsimp only; omega, by dsimp only; omega⟩, le_refl 0, hw⟩
  -- 'D' index
  · simp only [Option.map_eq_some'] at he
    obtain ⟨s1, hr, heq⟩ := he
    subst heq
    exact EmuInv_parserUpdate (newline_inv ⟨hw, hh, hsh, hcy0, hcy1, hsx0, hsx1,
      hsy0, hsy1, hst0, hst1, hsb0, hsb1⟩ hr)
  -- 'M' reverse index
  · simp only [Option.map_eq_some'] at he
    obtain ⟨s1, hr, heq⟩ := he
    subst heq
    exact EmuInv_parserUpdate (reverseNewline_inv ⟨⟨hw, hh, hsh, hcy0, hcy1, hsx0, hsx1,
      hsy0, hsy1, hst0, hst1, hsb0, hsb1⟩, hcx0, hcx1⟩ hr)
  -- '7' save cursor
  · rw [Option.some_inj] at he
    subst he
    exact ⟨⟨hw, hh, hsh, hcy0, hcy1, hcx0, hcx1, hcy0, hcy1, hst0, hst1, hsb0, hsb1⟩,
      hcx0, hcx1⟩
  -- '8' restore cursor
  · rw [Option.some_inj] at he
    subst he
    exact ⟨⟨hw, hh, hsh, hsy0, hsy1, hsx0, hsx1, hsy0, hsy1, hst0, hst1, hsb0, hsb1⟩,
      hsx0, hsx1⟩
  -- absorbed
  · rw [Option.some_inj] at he
    subst he
    exact ⟨⟨hw, hh, hsh, hcy0, hcy1, hsx0, hsx1, hsy0, hsy1, hst0, hst1, hsb0, hsb1⟩,
      hcx0, hcx1⟩

theorem processCSIByte_inv {st st' : TerminalEmulator} {b : Nat} (h : EmuInv st)
    (he : processCSIByte st b = some st') : EmuInv st' := by
  have hInv := h
  obtain ⟨⟨hw, hh, hsh, hcy0, hcy1, hsx0, hsx1, hsy0, hsy1, hst0, hst1, hsb0, hsb1⟩,
    hcx0, hcx1⟩ := h
  unfold processCSIByte at he
  split_ifs at he
  · rw [Option.some_inj] at he
    subst he
    exact ⟨⟨hw, hh, hsh, hcy0, hcy1, hsx0, hsx1, hsy0, hsy1, hst0, hst1, hsb0, hsb1⟩,
      hcx0, hcx1⟩
  · rw [Option.some_inj] at he
    subst he
    exact ⟨⟨hw, hh, hsh, hcy0, hcy1, hsx0, hsx1, hsy0, hsy1, hst0, hst1, hsb0, hsb1⟩,
      hcx0, hcx1⟩
  · simp only [Option.map_eq_some'] at he
    obtain ⟨s1, hr, heq⟩ := he
    subst heq
    exact EmuInv_parserUpdate (executeCSICommand_inv hInv hr)

theorem processOSCByte_inv {st st' : TerminalEmulator} {b : Nat} (h : EmuInv st)
    (he : processOSCByte st b = some st') : EmuInv st' := by
  have hInv := h
  obtain ⟨⟨hw, hh, hsh, hcy0, hcy1, hsx0, hsx1, hsy0, hsy1, hst0, hst1, hsb0, hsb1⟩,
    hcx0, hcx1⟩ := h
  unfold processOSCByte at he
  split_ifs at he
  · rw [Option.some_inj] at he
    subst he
    exact ⟨⟨hw, hh, hsh, hcy0, hcy1, hsx0, hsx1, hsy0, hsy1, hst0, hst1, hsb0, hsb1⟩,
      hcx0, hcx1⟩
  · rw [Option.some_inj] at he
    subst he
    exact hInv

theorem processByte_inv {st st' : TerminalEmulator} {b : Nat} (h : EmuInv st)
    (he : processByte st b = some st') : EmuInv st' := by
  unfold processByte at he
  split at he
  · exact processNormalByte_inv h he
  · exact processEscapeByte_inv h he
  · exact processCSIByte_inv h he
  · exact processOSCByte_inv h he

theorem ProcessData_inv {st st' : TerminalEmulator} {data : List Nat} (h : EmuInv st)
    (he : ProcessData st data = some st') : EmuInv st' :=
  foldlM_option_preserve EmuInv processByte
    (fun _ _ _ hP hf => processByte_inv hP hf) data st st' h he

theorem NewTerminalEmulator_inv {w h : Nat} (hw : 1 ≤ w) (hh : 1 ≤ h) :
    EmuInv (NewTerminalEmulator w h) := by
  refine ⟨⟨by dsimp only [NewTerminalEmulator]; omega, by dsimp only [NewTerminalEmulator]; omega,
    ⟨?_, ?_⟩, ?_, ?_, ?_, ?_, ?_, ?_, ?_, ?_, ?_, ?_⟩, ?_, ?_⟩ <;>
    simp only [NewTerminalEmulator, List.length_replicate]
  · omega
  · intro r hr
    rw [List.eq_of_mem_replicate hr]
    simp
  all_goals omega

end tui

/-! ## Lemmas for the state synchronizer -/

namespace webui

theorem UpdateState_version (sm : StateManager) (s : GameState) :
    (UpdateState sm s).version = (sm.version + 1) % 2 ^ 64 := by
  unfold UpdateState
  cases sm.currentState <;> rfl

theorem UpdateState_currentState (sm : StateManager) (s : GameState) :
    (UpdateState sm s).currentState =
      some { s with Version := (sm.version + 1) % 2 ^ 64 } := by
  unfold UpdateState
  cases sm.currentState <;> rfl

theorem SMInv_reachable {sm : StateManager} (h : SMReachable sm) : SMInv sm := by
  induction h with
  | init =>
    exact ⟨fun _ => rfl, fun s hs => by simp [NewStateManager] at hs⟩
  | update s h ih =>
    rename_i sm'
    refine ⟨fun hc => ?_, fun s' hs' => ?_⟩
    · rw [UpdateState_currentState] at hc
      exact absurd hc (by simp)
    · rw [UpdateState_currentState] at hs'
      rw [UpdateState_version]
      rw [Option.some_inj] at hs'
      rw [← hs']
  | register v h ih =>
    exact ⟨ih.1, ih.2⟩
  | unregister v h ih =>
    exact ⟨ih.1, ih.2⟩

theorem version_applyUpdates (l : List GameState) :
    ∀ (sm : StateManager), sm.version < 2 ^ 64 →
      (applyUpdates sm l).version = (sm.version + l.length) % 2 ^ 64 := by
  induction l with
  | nil =>
    intro sm hv
    simp [applyUpdates]
    omega
  | cons s l ih =>
    intro sm hv
    have h1 : (UpdateState sm s).version = (sm.version + 1) % 2 ^ 64 :=
      UpdateState_version sm s
    have h2 : (UpdateState sm s).version < 2 ^ 64 := by rw [h1]; omega
    have := ih (UpdateState sm s) h2
    unfold applyUpdates at this ⊢
    rw [List.foldl_cons, this, h1]
    simp only [List.length_cons]
    omega

theorem GetCurrentVersion_applyUpdates (l : List GameState) (sm : StateManager)
    (hv : sm.version < 2 ^ 64) :
    GetCurrentVersion (applyUpdates sm l) = (sm.version + l.length) % 2 ^ 64 :=
  version_applyUpdates l sm hv

end webui

namespace tui

theorem mem_intRange {a b y : Int} : y ∈ intRange a b ↔ a ≤ y ∧ y < b := by
  constructor
  · intro h
    obtain ⟨i, hi, hy⟩ := List.mem_map.mp h
    rw [List.mem_range] at hi
    omega
  · intro hy
    refine List.mem_map.mpr ⟨(y - a).toNat, ?_, ?_⟩
    · rw [List.mem_range]
      omega
    · omega

theorem intRange_nodup (a b : Int) : (intRange a b).Nodup := by
  refine List.Nodup.map ?_ (List.nodup_range _)
  intro i j hij
  have h2 : a + (i : Int) = a + (j : Int) := hij
  omega

end tui

namespace webui

theorem flatMap_eq_nil_of {α β : Type} {l : List α} {g : α → List β}
    (h : ∀ x ∈ l, g x = []) : l.flatMap g = [] := by
  induction l with
  | nil => rfl
  | cons a l ih =>
    rw [List.flatMap_cons, h a (List.mem_cons_self a l),
      ih (fun x hx => h x (List.mem_cons_of_mem a hx))]
    rfl

theorem filterMap_eq_single {α β : Type} {l : List α} {f : α → Option β} {x0 : α} {e : β}
    (hnd : l.Nodup) (hx0 : x0 ∈ l) (hf : f x0 = some e)
    (hother : ∀ x ∈ l, x ≠ x0 → f x = none) : l.filterMap f = [e] := by
  induction l with
  | nil => cases hx0
  | cons a l ih =>
    rcases List.mem_cons.mp hx0 with rfl | hmem
    · have hnil : l.filterMap f = [] := by
        rw [List.filterMap_eq_nil_iff]
        intro x hx
        exact hother x (List.mem_cons_of_mem _ hx)
          (fun hxx => (List.nodup_cons.mp hnd).1 (hxx ▸ hx))
      rw [List.filterMap_cons, hf, hnil]
    · have ha : f a = none := hother a (List.mem_cons_self a l)
        (fun haa => (List.nodup_cons.mp hnd).1 (haa ▸ hmem))
      rw [List.filterMap_cons, ha]
      exact ih (List.nodup_cons.mp hnd).2 hmem
        (fun x hx hxx => hother x (List.mem_cons_of_mem _ hx) hxx)

theorem flatMap_eq_single {α β : Type} {l : List α} {g : α → List β} {y0 : α}
    (hnd : l.Nodup) (hy0 : y0 ∈ l)
    (hother : ∀ y ∈ l, y ≠ y0 → g y = []) : l.flatMap g = g y0 := by
  induction l with
  | nil => cases hy0
  | cons a l ih =>
    rcases List.mem_cons.mp hy0 with rfl | hmem
    · have hnil : l.flatMap g = [] := flatMap_eq_nil_of (fun y hy =>
        hother y (List.mem_cons_of_mem _ hy)
          (fun hyy => (List.nodup_cons.mp hnd).1 (hyy ▸ hy)))
      rw [List.flatMap_cons, hnil, List.append_nil]
    · have ha : g a = [] := hother a (List.mem_cons_self a l)
        (fun haa => (List.nodup_cons.mp hnd).1 (haa ▸ hmem))
      rw [List.flatMap_cons, ha, List.nil_append]
      exact ih (List.nodup_cons.mp hnd).2 hmem
        (fun y hy hyy => hother y (List.mem_cons_of_mem _ hy) hyy)

end webui

/-! ## Lemmas for the waiter table (claim C10) -/

namespace webui

theorem chanLookup_cons_ne {c : Nat × WaiterChan} {cs : List (Nat × WaiterChan)}
    {id : Nat} (h : c.1 ≠ id) : chanLookup (c :: cs) id = chanLookup cs id := by
  unfold chanLookup
  rw [List.find?_cons_of_neg]
  simpa using h

theorem chanLookup_map {cs : List (Nat × WaiterChan)}
    {f : (Nat × WaiterChan) → (Nat × WaiterChan)} {id : Nat}
    (hfix : ∀ c ∈ cs, c.1 = id → f c = c) (hfst : ∀ c ∈ cs, (f c).1 = c.1) :
    chanLookup (cs.map f) id = chanLookup cs id := by
  induction cs with
  | nil => rfl
  | cons c cs ih =>
    by_cases hc : c.1 = id
    · have hfc : f c = c := hfix c (List.mem_cons_self c cs) hc
      rw [List.map_cons, hfc]
      unfold chanLookup
      rw [List.find?_cons_of_pos _ (by simpa using hc),
        List.find?_cons_of_pos _ (by simpa using hc)]
    · rw [List.map_cons,
        chanLookup_cons_ne (by rw [hfst c (List.mem_cons_self c cs)]; exact hc),
        chanLookup_cons_ne hc]
      exact ih (fun x hx => hfix x (List.mem_cons_of_mem c hx))
        (fun x hx => hfst x (List.mem_cons_of_mem c hx))

/-- Induction invariant for the replaced-poller argument: channel `id0` is
registered under no version key, and `id0` predates the freshness counter. -/
def ChanOrphan (id0 : Nat) (W : WaiterSys) : Prop :=
  (∀ w ∈ W.waiters, w.2 ≠ id0) ∧ id0 < W.nextId

theorem ChanOrphan_step {id0 : Nat} {W : WaiterSys} (op : WaiterOp)
    (h : ChanOrphan id0 W) :
    ChanOrphan id0 (applyWaiterOp W op) ∧
      chanLookup (applyWaiterOp W op).chans id0 = chanLookup W.chans id0 := by
  obtain ⟨hno, hlt⟩ := h
  cases op with
  | register v =>
    refine ⟨⟨?_, ?_⟩, ?_⟩
    · intro w hw
      unfold applyWaiterOp mapSet at hw
      dsimp only at hw
      split at hw
      · obtain ⟨w0, hw0, hmap⟩ := List.mem_map.mp hw
        by_cases hkey : w0.1 = v
        · rw [if_pos hkey] at hmap
          rw [← hmap]
          dsimp only
          omega
        · rw [if_neg hkey] at hmap
          exact hmap ▸ hno w0 hw0
      · rcases List.mem_append.mp hw with hmem | hmem
        · exact hno w hmem
        · rw [List.mem_singleton] at hmem
          rw [hmem]
          dsimp only
          omega
    · show id0 < W.nextId + 1
      omega
    · exact chanLookup_cons_ne (by dsimp only; omega)
  | unregister v =>
    refine ⟨⟨?_, hlt⟩, rfl⟩
    intro w hw
    exact hno w (List.mem_of_mem_filter hw)
  | notify d =>
    refine ⟨⟨hno, hlt⟩, ?_⟩
    refine chanLookup_map (fun c hc hcid => ?_) (fun c hc => ?_)
    · dsimp only
      split
      · rename_i hcond
        obtain ⟨w, hw, hwp⟩ := List.any_eq_true.mp hcond.1
        simp only [decide_eq_true_eq] at hwp
        exact absurd (hwp.1.trans hcid) (hno w hw)
      · rfl
    · dsimp only
      split <;> rfl

theorem ChanOrphan_foldl {id0 : Nat} (ops : List WaiterOp) :
    ∀ (W : WaiterSys), ChanOrphan id0 W →
      chanLookup (ops.foldl applyWaiterOp W).chans id0 = chanLookup W.chans id0 := by
  induction ops with
  | nil => intro W _; rfl
  | cons op ops ih =>
    intro W hW
    obtain ⟨h1, h2⟩ := ChanOrphan_step op hW
    rw [List.foldl_cons, ih _ h1, h2]

theorem waiterKeys_nodup {W : WaiterSys} (h : WaiterReachable W) :
    (W.waiters.map Prod.fst).Nodup := by
  induction h with
  | init => exact List.nodup_nil
  | step op h ih =>
    rename_i W0
    cases op with
    | register v =>
      show ((mapSet W0.waiters v W0.nextId).map Prod.fst).Nodup
      unfold mapSet
      split
      · have : (W0.waiters.map (fun w => if w.1 = v then (v, W0.nextId) else w)).map
            Prod.fst = W0.waiters.map Prod.fst := by
          rw [List.map_map]
          refine List.map_congr_left (fun w _ => ?_)
          by_cases hw : w.1 = v
          · simp [hw]
          · simp [hw]
        rw [this]
        exact ih
      · rename_i hany
        rw [List.map_append]
        rw [List.nodup_append]
        refine ⟨ih, List.nodup_singleton _, ?_⟩
        intro k hk hk2
        rw [List.map_singleton, List.mem_singleton] at hk2
        obtain ⟨w, hw, hwk⟩ := List.mem_map.mp hk
        exact hany (List.any_eq_true.mpr ⟨w, hw, by simp [hwk ▸ hk2]⟩)
    | unregister v =>
      exact List.Nodup.sublist (List.Sublist.map _ (List.filter_sublist _)) ih
    | notify d =>
      exact ih

end webui

namespace webui

theorem waiterLookup_replace (v id : Nat) :
    ∀ ws : List (Nat × Nat),
      waiterLookup (ws.map (fun w => if w.1 = v then (v, id) else w)) v =
        (ws.find? (fun w => w.1 = v)).map (fun _ => id) := by
  intro ws
  induction ws with
  | nil => rfl
  | cons w ws ih =>
    by_cases hw : w.1 = v
    · rw [List.map_cons, if_pos hw]
      unfold waiterLookup
      rw [List.find?_cons_of_pos _ (by simp), List.find?_cons_of_pos _ (by simpa using hw)]
      rfl
    · rw [List.map_cons, if_neg hw]
      unfold waiterLookup
      rw [List.find?_cons_of_neg _ (by simpa using hw),
        List.find?_cons_of_neg _ (by simpa using hw)]
      exact ih

theorem waiterLookup_append_single (v id : Nat) :
    ∀ ws : List (Nat × Nat), (∀ w ∈ ws, w.1 ≠ v) →
      waiterLookup (ws ++ [(v, id)]) v = some id := by
  intro ws
  induction ws with
  | nil =>
    intro _
    unfold waiterLookup
    rw [List.nil_append, List.find?_cons_of_pos _ (by simp)]
    rfl
  | cons w ws ih =>
    intro hno
    rw [List.cons_append]
    unfold waiterLookup
    rw [List.find?_cons_of_neg _ (by simpa using hno w (List.mem_cons_self w ws))]
    exact ih (fun x hx => hno x (List.mem_cons_of_mem w hx))

theorem waiterLookup_mapSet (ws : List (Nat × Nat)) (v id : Nat)
    (h : waiterLookup ws v ≠ none) :
    waiterLookup (mapSet ws v id) v = some id := by
  unfold mapSet
  split
  · rw [waiterLookup_replace]
    unfold waiterLookup at h
    cases hf : ws.find? (fun w => w.1 = v) with
    | none => rw [hf] at h; simp at h
    | some w => simp [hf]
  · rename_i hany
    refine waiterLookup_append_single v id ws (fun w hw hwv => ?_)
    exact hany (List.any_eq_true.mpr ⟨w, hw, by simpa using hwv⟩)

theorem mem_of_waiterLookup {ws : List (Nat × Nat)} {v id : Nat}
    (h : waiterLookup ws v = some id) : (v, id) ∈ ws := by
  unfold waiterLookup at h
  cases hf : ws.find? (fun w => w.1 = v) with
  | none => rw [hf] at h; simp at h
  | some w =>
    rw [hf] at h
    have hmem := List.mem_of_find?_eq_some hf
    have hpred := List.find?_some hf
    simp only [decide_eq_true_eq] at hpred
    simp only [Option.map_some', Option.some_inj] at h
    have : w = (v, id) := by
      cases w
      simp_all
    exact this ▸ hmem

theorem snd_unique {ws : List (Nat × Nat)} (hnd : (ws.map Prod.snd).Nodup)
    {w1 w2 : Nat × Nat} (h1 : w1 ∈ ws) (h2 : w2 ∈ ws) (he : w1.2 = w2.2) :
    w1 = w2 := by
  by_contra hne
  have hp : ws.Pairwise (fun a b => a.2 ≠ b.2) := List.pairwise_map.mp hnd
  exact (List.Pairwise.forall (fun a b h => fun hba => h hba.symm) hp h1 h2 hne) he

end webui

/-! ## Lemmas for the reconnection loop -/

namespace dgclient

theorem reconnectLoop_le (ok : Nat → Bool) :
    ∀ (fuel i : Nat) (delay : ℚ), (reconnectLoop ok i delay fuel).2.1 ≤ fuel := by
  intro fuel
  induction fuel with
  | zero =>
    intro i delay
    simp [reconnectLoop]
  | succ n ih =>
    intro i delay
    simp only [reconnectLoop]
    split
    · simp
    · dsimp only
      have := ih (i + 1) (if 0 < i then delay * (3 / 2) else delay)
      omega

theorem reconnectLoop_sleeps (ok : Nat → Bool) :
    ∀ (fuel i : Nat) (delay : ℚ), 0 < i →
      (reconnectLoop ok i delay fuel).2.2 =
        (List.range (reconnectLoop ok i delay fuel).2.1).map
          (fun j => delay * (3 / 2) ^ j) := by
  intro fuel
  induction fuel with
  | zero =>
    intro i delay _
    simp [reconnectLoop]
  | succ n ih =>
    intro i delay hi
    simp only [reconnectLoop, if_pos hi]
    split
    · simp [List.range_succ]
    · dsimp only
      rw [ih (i + 1) (delay * (3 / 2)) (by omega)]
      rw [List.range_succ_eq_map, List.map_cons, List.map_map]
      rw [pow_zero, mul_one]
      refine congrArg _ (List.map_congr_left (fun j _ => ?_))
      simp only [Function.comp_apply]
      rw [pow_succ]
      ring

theorem reconnectLoop_allfail (ok : Nat → Bool) (hok : ∀ j, ok j = false) :
    ∀ (fuel i : Nat) (delay : ℚ),
      (reconnectLoop ok i delay fuel).1 = false ∧
        (reconnectLoop ok i delay fuel).2.1 = fuel := by
  intro fuel
  induction fuel with
  | zero =>
    intro i delay
    simp [reconnectLoop]
  | succ n ih =>
    intro i delay
    have h2 := ih (i + 1) (if 0 < i then delay * (3 / 2) else delay)
    simp only [reconnectLoop, hok i, Bool.false_eq_true, if_false]
    exact ⟨h2.1, congrArg (fun x => x + 1) h2.2⟩

theorem reconnectLoop_start (ok : Nat → Bool) (fuel : Nat) (delay : ℚ) :
    (reconnectLoop ok 0 delay fuel).2.2 =
      (List.range ((reconnectLoop ok 0 delay fuel).2.1 - 1)).map
        (fun j => delay * (3 / 2) ^ j) := by
  cases fuel with
  | zero => simp [reconnectLoop]
  | succ n =>
    simp only [reconnectLoop, Nat.lt_irrefl, if_false]
    split
    · simp
    · rw [reconnectLoop_sleeps ok n 1 delay (by omega)]
      simp

end dgclient

/-! ## The claims -/

/-- C1: REFUTED — the Terminal Display Engine is *not* total.  Two concrete
byte sequences make `ProcessData` panic (`none`): (1) the common CSI
sequence `ESC [ ; 5 H` (empty first parameter): after `;` the parameter
index is 1 while `params` has grown to length 1 only, so
`params[paramIndex]` indexes out of range; (2) save-cursor at row 5,
`Resize` to height 3, restore-cursor, then `ESC [ K`:
`eraseFromCursorToEndOfLine` indexes `screen[5]` of a 3-row buffer. -/
theorem c1_process_data_panics :
    tui.ProcessData (tui.NewTerminalEmulator 80 24) [27, 91, 59, 53, 72] = none ∧
    ((tui.ProcessData (tui.NewTerminalEmulator 10 10)
        [10, 10, 10, 10, 10, 27, 55]).map
      (fun st => tui.Resize st 10 3)).bind
      (fun st => tui.ProcessData st [27, 56, 27, 91, 75]) = none := by
  constructor <;> rfl

/-- C2, counterexample: the ScreenBuffer invariant's `top ≤ bottom` clause
fails after `ESC [ 5 ; 2 r` on a 10×10 buffer — the code clamps each margin
separately and stores `scrollTop = 4 > 1 = scrollBottom`. -/
theorem c2_counterexample :
    (tui.ProcessData (tui.NewTerminalEmulator 10 10) [27, 91, 53, 59, 50, 114]).map
      (fun st => (st.scrollTop, st.scrollBottom, decide (st.scrollTop ≤ st.scrollBottom)))
      = some (4, 1, false) := by
  rfl

/-- C2, amended: for every byte sequence processed from a fresh emulator
(no `Resize`), whenever processing completes without a panic the invariant
minus the `top ≤ bottom` clause holds: cursor and saved cursor in
`[0,w)×[0,h)`, both margins in `[0,h)`, and the buffer rectangular. -/
theorem c2_invariant_no_resize {w h : Nat} {data : List Nat}
    {st' : tui.TerminalEmulator} (hw : 1 ≤ w) (hh : 1 ≤ h)
    (he : tui.ProcessData (tui.NewTerminalEmulator w h) data = some st') :
    tui.EmuInv st' :=
  tui.ProcessData_inv (tui.NewTerminalEmulator_inv hw hh) he

theorem c2_invariant_no_resize_witness :
    (1 ≤ 2 ∧ 1 ≤ 3) ∧ tui.EmuInv (tui.NewTerminalEmulator 2 3) :=
  ⟨⟨by decide, by decide⟩,
    @c2_invariant_no_resize 2 3 [] (tui.NewTerminalEmulator 2 3)
      (by decide) (by decide) rfl⟩

/-- C3, counterexample: `ESC [ 7 ; 3 r` on a 10×10 buffer stores
`scrollTop = 6 > 2 = scrollBottom` — the bottom margin is *not* forced to be
`≥` the top margin. -/
theorem c3_counterexample :
    (tui.ProcessData (tui.NewTerminalEmulator 10 10) [27, 91, 55, 59, 51, 114]).map
      (fun st => (st.scrollTop, st.scrollBottom, decide (st.scrollTop ≤ st.scrollBottom)))
      = some (6, 2, false) := by
  rfl

/-- C3, amended: after a CSI `r` command with any parameter values on a
buffer of height `h ≥ 1`, both scroll margins are clamped into `[0,h)`
(but the bottom margin is not forced `≥` the top margin). -/
theorem c3_scroll_margins_clamped (st : tui.TerminalEmulator)
    (hh : 1 ≤ st.height) :
    ∃ st', tui.executeCSICommand st 114 = some st' ∧
      0 ≤ st'.scrollTop ∧ st'.scrollTop < st.height ∧
      0 ≤ st'.scrollBottom ∧ st'.scrollBottom < st.height := by
  refine ⟨_, rfl, ?_, ?_, ?_, ?_⟩ <;> dsimp only <;> omega

theorem c3_scroll_margins_clamped_witness :
    1 ≤ (tui.NewTerminalEmulator 4 4).height ∧
    (∃ st', tui.executeCSICommand (tui.NewTerminalEmulator 4 4) 114 = some st' ∧
      0 ≤ st'.scrollTop ∧ st'.scrollTop < (tui.NewTerminalEmulator 4 4).height ∧
      0 ≤ st'.scrollBottom ∧ st'.scrollBottom < (tui.NewTerminalEmulator 4 4).height) :=
  ⟨by decide, c3_scroll_margins_clamped _ (by decide)⟩

/-- C9: REFUTED (code bug) — `WebView.HandleInput` does *not* block on an
empty open queue: the non-blocking `select` returns `(nil, io.EOF)` the
moment the buffer is empty while the channel is still open, and returns
`(nil, nil)` — no EOF at all — once the channel is actually closed.  This
inverts both the `View` interface contract ("Returns nil, io.EOF when
input stream is closed") and the claim. -/
theorem c9_handleinput_eof_when_open_empty :
    webui.HandleInput ⟨[], false⟩ = ((none, some .eof), ⟨[], false⟩) ∧
    webui.HandleInput ⟨[], true⟩ = ((none, none), ⟨[], true⟩) :=
  ⟨rfl, rfl⟩

/-- C4: during automatic reconnection, `Connect` is attempted at most
`MaxReconnectAttempts` times; the sleeps before the retries start at the
configured base delay and are multiplied by 1.5 after each one (no upper
cap); and when every attempt fails the routine reports an error after
exactly `MaxReconnectAttempts` attempts, issuing none beyond the cap. -/
theorem c4_reconnection_policy (cfg : dgclient.ReconnectConfig) (ok : Nat → Bool) :
    (dgclient.handleReconnection cfg ok).2.1 ≤ cfg.MaxReconnectAttempts.toNat ∧
    (dgclient.handleReconnection cfg ok).2.2 =
      (List.range ((dgclient.handleReconnection cfg ok).2.1 - 1)).map
        (fun j => cfg.ReconnectDelay * (3 / 2) ^ j) ∧
    ((∀ j, ok j = false) →
      (dgclient.handleReconnection cfg ok).1 = false ∧
      (dgclient.handleReconnection cfg ok).2.1 = cfg.MaxReconnectAttempts.toNat) := by
  unfold dgclient.handleReconnection
  split
  · rename_i hle
    rw [Int.toNat_of_nonpos hle]
    exact ⟨le_refl 0, by simp, fun _ => ⟨rfl, rfl⟩⟩
  · refine ⟨dgclient.reconnectLoop_le ok _ 0 _, dgclient.reconnectLoop_start ok _ _,
      fun hok => ?_⟩
    exact ⟨(dgclient.reconnectLoop_allfail ok hok _ 0 _).1,
      (dgclient.reconnectLoop_allfail ok hok _ 0 _).2⟩

theorem c4_reconnection_policy_witness :
    (dgclient.handleReconnection ⟨3, 100⟩ (fun (_ : Nat) => false)).2.1 ≤ (3 : Int).toNat ∧
    (dgclient.handleReconnection ⟨3, 100⟩ (fun (_ : Nat) => false)).2.2 =
      (List.range ((dgclient.handleReconnection ⟨3, 100⟩ (fun (_ : Nat) => false)).2.1 - 1)).map
        (fun j => (100 : ℚ) * (3 / 2) ^ j) ∧
    ((∀ j, (fun (_ : Nat) => false) j = false) →
      (dgclient.handleReconnection ⟨3, 100⟩ (fun (_ : Nat) => false)).1 = false ∧
      (dgclient.handleReconnection ⟨3, 100⟩ (fun (_ : Nat) => false)).2.1 = (3 : Int).toNat) :=
  c4_reconnection_policy ⟨3, 100⟩ (fun (_ : Nat) => false)

/-- C5, counterexample: on the very first `UpdateState` (no prior
snapshot), the version is incremented and the snapshot stored, but the
registered waiter at version 0 — whose version is less than the new
version 1 — is *not* woken: its one-slot channel stays empty, because
`UpdateState` only notifies when a diff was generated, and no diff is
generated without a previous state. -/
theorem c5_counterexample :
    (webui.UpdateState ⟨none, 0, [(0, none)]⟩
      ⟨[[webui.zeroCell]], 1, 1, 0, 0, 0, 0⟩).version = 1 ∧
    (webui.UpdateState ⟨none, 0, [(0, none)]⟩
      ⟨[[webui.zeroCell]], 1, 1, 0, 0, 0, 0⟩).currentState ≠ none ∧
    (webui.UpdateState ⟨none, 0, [(0, none)]⟩
      ⟨[[webui.zeroCell]], 1, 1, 0, 0, 0, 0⟩).waiters = [(0, none)] ∧
    (0 : Nat) < 1 :=
  ⟨rfl, by simp [webui.UpdateState], rfl, by omega⟩

/-- C5, amended: when a prior snapshot exists, `UpdateState` increments
the (wrapping) version counter, stores the stamped snapshot, and after the
call every registered waiter whose requested version is less than the new
version has a non-empty channel (it was woken now, or had already been
woken).  On the very first call the counter and snapshot are still
updated, but no waiter is woken (see the counterexample). -/
theorem c5_update_notifies (sm : webui.StateManager) (state prior : webui.GameState)
    (hprior : sm.currentState = some prior) :
    (webui.UpdateState sm state).version = (sm.version + 1) % 2 ^ 64 ∧
    (webui.UpdateState sm state).currentState =
      some { state with Version := (sm.version + 1) % 2 ^ 64 } ∧
    ∀ w ∈ (webui.UpdateState sm state).waiters,
      w.1 < (webui.UpdateState sm state).version → w.2 ≠ none := by
  refine ⟨webui.UpdateState_version _ _, webui.UpdateState_currentState _ _, ?_⟩
  intro w hw hlt
  rw [webui.UpdateState_version] at hlt
  unfold webui.UpdateState at hw
  rw [hprior] at hw
  dsimp only at hw
  unfold webui.notifyWaiters at hw
  obtain ⟨w0, hw0, heq⟩ := List.mem_map.mp hw
  by_cases hcond : w0.1 < (webui.generateDiff prior
      { state with Version := (sm.version + 1) % 2 ^ 64 }).Version ∧ w0.2 = none
  · rw [if_pos hcond] at heq
    rw [← heq]
    simp
  · rw [if_neg hcond] at heq
    subst heq
    intro hnone
    exact hcond ⟨hlt, hnone⟩

theorem c5_update_notifies_witness :
    (webui.UpdateState ⟨some ⟨[[webui.zeroCell]], 1, 1, 0, 0, 1, 0⟩, 1, [(0, none)]⟩
      ⟨[[webui.zeroCell]], 1, 1, 0, 0, 0, 0⟩).version = (1 + 1) % 2 ^ 64 ∧
    (webui.UpdateState ⟨some ⟨[[webui.zeroCell]], 1, 1, 0, 0, 1, 0⟩, 1, [(0, none)]⟩
      ⟨[[webui.zeroCell]], 1, 1, 0, 0, 0, 0⟩).currentState =
      some ⟨[[webui.zeroCell]], 1, 1, 0, 0, (1 + 1) % 2 ^ 64, 0⟩ ∧
    ∀ w ∈ (webui.UpdateState ⟨some ⟨[[webui.zeroCell]], 1, 1, 0, 0, 1, 0⟩, 1, [(0, none)]⟩
      ⟨[[webui.zeroCell]], 1, 1, 0, 0, 0, 0⟩).waiters,
      w.1 < (webui.UpdateState ⟨some ⟨[[webui.zeroCell]], 1, 1, 0, 0, 1, 0⟩, 1, [(0, none)]⟩
        ⟨[[webui.zeroCell]], 1, 1, 0, 0, 0, 0⟩).version → w.2 ≠ none :=
  c5_update_notifies _ _ _ rfl

/-- C6: a `PollChanges`/`PollChangesWithContext` call with `sinceVersion`
strictly below the current version returns immediately — without touching
the waiter table — a non-nil diff whose version equals the current version
and whose changes enumerate every cell of the current snapshot
(`fullStateDiff`), with no historical reconstruction. -/
theorem c6_poll_behind_immediate (sm : webui.StateManager) (v : Nat)
    (hr : webui.SMReachable sm) (hv : v < sm.version) :
    ∃ s, sm.currentState = some s ∧
      webui.pollChangesStep sm v =
        webui.PollOutcome.immediate (some (webui.fullStateDiff s)) ∧
      (webui.fullStateDiff s).Version = sm.version := by
  obtain ⟨h1, h2⟩ := webui.SMInv_reachable hr
  cases hc : sm.currentState with
  | none =>
    have := h1 hc
    omega
  | some s =>
    refine ⟨s, rfl, ?_, h2 s hc⟩
    unfold webui.pollChangesStep
    rw [if_pos hv]
    unfold webui.generateDiffFromVersion
    rw [hc]
    rfl

theorem c6_poll_behind_immediate_witness :
    0 < (webui.UpdateState webui.NewStateManager
      ⟨[[webui.zeroCell]], 1, 1, 0, 0, 0, 0⟩).version ∧
    (∃ s, (webui.UpdateState webui.NewStateManager
        ⟨[[webui.zeroCell]], 1, 1, 0, 0, 0, 0⟩).currentState = some s ∧
      webui.pollChangesStep (webui.UpdateState webui.NewStateManager
        ⟨[[webui.zeroCell]], 1, 1, 0, 0, 0, 0⟩) 0 =
        webui.PollOutcome.immediate (some (webui.fullStateDiff s)) ∧
      (webui.fullStateDiff s).Version = (webui.UpdateState webui.NewStateManager
        ⟨[[webui.zeroCell]], 1, 1, 0, 0, 0, 0⟩).version) :=
  ⟨by decide,
   c6_poll_behind_immediate _ 0
     (webui.SMReachable.update _ webui.SMReachable.init) (by decide)⟩

/-- C7, counterexample: two equal-dimension 1×1 snapshots whose single
cells differ as Go values — only in the internal `Changed` flag — produce
an *empty* changes list, not one entry: `cellsDiffer` does not compare
`Changed`, so "differ in exactly one cell" does not imply one diff entry. -/
theorem c7_counterexample :
    (⟨[[⟨'a', "", "", false, false, false, 0, 0, false⟩]], 1, 1, 0, 0, 0, 0⟩ :
        webui.GameState).Width =
      (⟨[[⟨'a', "", "", false, false, false, 0, 0, true⟩]], 1, 1, 0, 0, 0, 0⟩ :
        webui.GameState).Width ∧
    (⟨[[⟨'a', "", "", false, false, false, 0, 0, false⟩]], 1, 1, 0, 0, 0, 0⟩ :
        webui.GameState).Height =
      (⟨[[⟨'a', "", "", false, false, false, 0, 0, true⟩]], 1, 1, 0, 0, 0, 0⟩ :
        webui.GameState).Height ∧
    (⟨'a', "", "", false, false, false, 0, 0, false⟩ : webui.Cell) ≠
      ⟨'a', "", "", false, false, false, 0, 0, true⟩ ∧
    (webui.generateDiff
      ⟨[[⟨'a', "", "", false, false, false, 0, 0, false⟩]], 1, 1, 0, 0, 0, 0⟩
      ⟨[[⟨'a', "", "", false, false, false, 0, 0, true⟩]], 1, 1, 0, 0, 0, 0⟩).Changes
      = [] := by
  refine ⟨rfl, rfl, by decide, ?_⟩
  rfl

/-- C7, amended: if two snapshots have equal width and height and their
cells differ at exactly one coordinate *in an attribute compared by
`cellsDiffer`* (char, colors, bold, inverse, blink, tile coordinates — not
the internal `Changed` flag), then the generated diff has exactly one
entry, at that coordinate, carrying the new cell. -/
theorem c7_single_diff (s1 s2 : webui.GameState) (x0 y0 : Int)
    (hW : s1.Width = s2.Width) (hH : s1.Height = s2.Height)
    (hx0 : 0 ≤ x0) (hx1 : x0 < s2.Width) (hy0 : 0 ≤ y0) (hy1 : y0 < s2.Height)
    (hdiff : webui.cellsDiffer (webui.cellAt s1 y0 x0) (webui.cellAt s2 y0 x0) = true)
    (hsame : ∀ y x : Int, 0 ≤ y → y < s2.Height → 0 ≤ x → x < s2.Width →
      ¬(y = y0 ∧ x = x0) →
      webui.cellsDiffer (webui.cellAt s1 y x) (webui.cellAt s2 y x) = false) :
    (webui.generateDiff s1 s2).Changes = [⟨x0, y0, webui.cellAt s2 y0 x0⟩] := by
  unfold webui.generateDiff
  dsimp only
  rw [if_neg (by omega), List.append_nil]
  rw [show min s1.Height s2.Height = s2.Height by omega,
    show min s1.Width s2.Width = s2.Width by omega]
  rw [webui.flatMap_eq_single (tui.intRange_nodup 0 s2.Height)
    (tui.mem_intRange.mpr ⟨hy0, hy1⟩) ?_]
  · refine webui.filterMap_eq_single (tui.intRange_nodup 0 s2.Width)
      (tui.mem_intRange.mpr ⟨hx0, hx1⟩) ?_ ?_
    · rw [if_pos hdiff]
    · intro x hx hxx
      obtain ⟨hxa, hxb⟩ := tui.mem_intRange.mp hx
      rw [hsame y0 x hy0 hy1 hxa hxb (fun hc => hxx hc.2)]
      simp
  · intro y hy hyy
    obtain ⟨hya, hyb⟩ := tui.mem_intRange.mp hy
    rw [List.filterMap_eq_nil_iff]
    intro x hx
    obtain ⟨hxa, hxb⟩ := tui.mem_intRange.mp hx
    rw [hsame y x hya hyb hxa hxb (fun hc => hyy hc.1)]
    simp

theorem c7_single_diff_witness :
    (webui.generateDiff
      ⟨[[⟨'a', "", "", false, false, false, 0, 0, false⟩]], 1, 1, 0, 0, 0, 0⟩
      ⟨[[⟨'b', "", "", false, false, false, 0, 0, false⟩]], 1, 1, 0, 0, 0, 0⟩).Changes
      = [⟨0, 0, webui.cellAt
        ⟨[[⟨'b', "", "", false, false, false, 0, 0, false⟩]], 1, 1, 0, 0, 0, 0⟩ 0 0⟩] :=
  c7_single_diff _ _ 0 0 rfl rfl (by decide) (by decide) (by decide) (by decide)
    (by decide)
    (fun y x h0 h1 h2 h3 hne =>
      have hy : y < 1 := h1
      have hx : x < 1 := h3
      absurd ⟨by omega, by omega⟩ hne)

/-- C8, counterexample: the version counter is a `uint64` and wraps: after
exactly `2^64` calls to `UpdateState`, `GetCurrentVersion` returns `0`,
not `2^64` — so "after exactly n calls it returns exactly n" (and strict
monotonicity across calls) fails at the wrap. -/
theorem c8_counterexample :
    webui.GetCurrentVersion (webui.applyUpdates webui.NewStateManager
      (List.replicate (2 ^ 64) ⟨[[webui.zeroCell]], 1, 1, 0, 0, 0, 0⟩)) = 0 ∧
    (0 : Nat) ≠ 2 ^ 64 := by
  constructor
  · rw [webui.GetCurrentVersion_applyUpdates _ webui.NewStateManager
      (by show (0 : Nat) < 2 ^ 64; omega)]
    rw [List.length_replicate, show webui.NewStateManager.version = 0 from rfl]
    omega
  · omega

/-- C8, amended: after exactly `n` calls to `UpdateState` (starting from a
fresh manager), `GetCurrentVersion` returns `n mod 2^64`; in particular it
returns exactly `n`, and is strictly increasing, as long as `n < 2^64`. -/
theorem c8_version_counts (l : List webui.GameState) :
    webui.GetCurrentVersion (webui.applyUpdates webui.NewStateManager l) =
      l.length % 2 ^ 64 ∧
    (l.length < 2 ^ 64 →
      webui.GetCurrentVersion (webui.applyUpdates webui.NewStateManager l) =
        l.length) := by
  have h := webui.GetCurrentVersion_applyUpdates l webui.NewStateManager
    (by show (0 : Nat) < 2 ^ 64; omega)
  rw [h, show webui.NewStateManager.version = 0 from rfl]
  constructor
  · omega
  · intro hlt
    omega

theorem c8_version_counts_witness :
    webui.GetCurrentVersion (webui.applyUpdates webui.NewStateManager
      [⟨[[webui.zeroCell]], 1, 1, 0, 0, 0, 0⟩]) =
      [(⟨[[webui.zeroCell]], 1, 1, 0, 0, 0, 0⟩ : webui.GameState)].length % 2 ^ 64 ∧
    ([(⟨[[webui.zeroCell]], 1, 1, 0, 0, 0, 0⟩ : webui.GameState)].length < 2 ^ 64 →
      webui.GetCurrentVersion (webui.applyUpdates webui.NewStateManager
        [⟨[[webui.zeroCell]], 1, 1, 0, 0, 0, 0⟩]) =
        [(⟨[[webui.zeroCell]], 1, 1, 0, 0, 0, 0⟩ : webui.GameState)].length) :=
  c8_version_counts [⟨[[webui.zeroCell]], 1, 1, 0, 0, 0, 0⟩]

/-- C10: the waiter table holds at most one registered waiter per version
key (its keys are always distinct along any reachable history); and when a
poller registers at a version `v` where channel `id0` is already
registered, the table maps `v` to the fresh channel, and the replaced
channel `id0` is never sent anything again by any later sequence of
register/unregister/notify operations — its buffer never changes, so that
poller can only leave by timeout or cancellation. -/
theorem c10_waiter_replacement :
    (∀ W, webui.WaiterReachable W → (W.waiters.map Prod.fst).Nodup) ∧
    (∀ (W : webui.WaiterSys) (v id0 : Nat), webui.WaiterInv W →
      webui.waiterLookup W.waiters v = some id0 →
      webui.waiterLookup (webui.applyWaiterOp W (.register v)).waiters v =
        some W.nextId ∧
      ∀ ops : List webui.WaiterOp,
        webui.chanLookup (ops.foldl webui.applyWaiterOp
          (webui.applyWaiterOp W (.register v))).chans id0 =
        webui.chanLookup (webui.applyWaiterOp W (.register v)).chans id0) := by
  constructor
  · exact fun W h => webui.waiterKeys_nodup h
  · intro W v id0 hInv hlook
    obtain ⟨hkeys, hsnds, hbound⟩ := hInv
    have hmem : (v, id0) ∈ W.waiters := webui.mem_of_waiterLookup hlook
    have hlt : id0 < W.nextId := hbound (v, id0) hmem
    have horphan : webui.ChanOrphan id0 (webui.applyWaiterOp W (.register v)) := by
      refine ⟨fun w hw => ?_, by dsimp only [webui.applyWaiterOp]; omega⟩
      show w.2 ≠ id0
      dsimp only [webui.applyWaiterOp] at hw
      unfold webui.mapSet at hw
      split at hw
      · obtain ⟨w0, hw0, heq⟩ := List.mem_map.mp hw
        by_cases hk : w0.1 = v
        · rw [if_pos hk] at heq
          rw [← heq]
          dsimp only
          omega
        · rw [if_neg hk] at heq
          subst heq
          intro hid
          exact hk (congrArg Prod.fst
            (webui.snd_unique hsnds hw0 hmem (hid.trans rfl)))
      · rename_i hany
        exact absurd (List.any_eq_true.mpr ⟨(v, id0), hmem, by simp⟩) hany
    refine ⟨?_, fun ops => webui.ChanOrphan_foldl ops _ horphan⟩
    show webui.waiterLookup (webui.mapSet W.waiters v W.nextId) v = some W.nextId
    exact webui.waiterLookup_mapSet W.waiters v W.nextId (by rw [hlook]; simp)

theorem c10_waiter_replacement_witness :
    ((webui.applyWaiterOp ⟨[], [], 0⟩ (.register 5)).waiters.map Prod.fst).Nodup ∧
    webui.waiterLookup
      (webui.applyWaiterOp ⟨[(5, 0)], [(0, none)], 1⟩ (.register 5)).waiters 5 =
      some 1 ∧
    webui.chanLookup (([webui.WaiterOp.notify ⟨7, [], 0, 0, 0⟩]).foldl
      webui.applyWaiterOp
      (webui.applyWaiterOp ⟨[(5, 0)], [(0, none)], 1⟩ (.register 5))).chans 0 =
    webui.chanLookup
      (webui.applyWaiterOp ⟨[(5, 0)], [(0, none)], 1⟩ (.register 5)).chans 0 :=
  ⟨c10_waiter_replacement.1 _
    (webui.WaiterReachable.step _ webui.WaiterReachable.init),
   (c10_waiter_replacement.2 ⟨[(5, 0)], [(0, none)], 1⟩ 5 0
      ⟨by decide, by decide, by decide⟩ (by decide)).1,
   (c10_waiter_replacement.2 ⟨[(5, 0)], [(0, none)], 1⟩ 5 0
      ⟨by decide, by decide, by decide⟩ (by decide)).2
     [webui.WaiterOp.notify ⟨7, [], 0, 0, 0⟩]⟩
